import Mathlib

/-!
Verification of the TTKi-cli task scheduling core against its design
specification.

The Python sources embedded here (shallowly, over `List Char` texts and `ℚ`
numbers) are:

* `src/domain/services/task_analysis_service.py` — classifier and decomposer
  (`TaskAnalysisService.analyze_task`, `is_complex_task`, `extract_subtasks`);
* `src/domain/services/execution_planning_service.py` — plan builder
  (`_create_task_entities`, `_calculate_complexity_score`,
  `_identify_parallel_groups`);
* `src/domain/entities.py` — `TaskEntity` state machine
  (`start`/`complete`/`fail`), `ExecutionPlanEntity.get_ready_tasks`;
* `src/domain/services/agent_orchestrator.py` — agent scoring and selection
  (`_calculate_agent_score`, `_select_best_agent`), cycle detection
  (`_has_circular_dependencies`) and the plan driving loop (`execute_plan`);
* `agents/planner_agent.py` — the planner-side scoring and complexity
  variants (`_calculate_agent_score`, `_calculate_complexity_score`).

Modelling conventions: Python `str` becomes `List Char`; `float` becomes `ℚ`
(the constants of the source are exact decimals); mutation becomes explicit
state passing; methods that raise `ValueError` become `Except String`;
wall-clock quantities (`datetime.now() - last_activity`) become snapshot
fields; `uuid`-based id generation becomes an injected supply `Nat → Nat`.
The regular expressions of the source use only alternation, literals,
`.*`, word boundaries and `\d+`; a small matcher covering exactly those
constructs is defined below and used by the embedded rules.
-/

/- Core marks the `Rat` arithmetic operations `@[irreducible]`, which blocks
`decide` on concrete rational computations (the kernel itself is unaffected);
the embeddings below carry exact decimal constants as `ℚ`, so those
operations are made unfoldable for this file. -/
attribute [local semireducible] Rat.add Rat.mul Rat.sub Rat.inv

set_option maxRecDepth 100000

namespace TTKi

/-! ### Python text primitives -/

/-- The ASCII whitespace characters stripped by Python `str.strip()` and used
by `str.split()`. -/
def isSpaceChar (c : Char) : Bool :=
  c = ' ' || c = '\t' || c = '\n' || c = '\r' || c = '\x0b' || c = '\x0c'

/-- Python `\w` (ASCII range): letters, digits, underscore. -/
def isWordChar (c : Char) : Bool :=
  c.isAlpha || c.isDigit || c = '_'

/-- Python `str.lower()` (ASCII range, which is all the source's rule
tables use). -/
def lowerStr (s : List Char) : List Char :=
  s.map Char.toLower

/-- Python `str.strip()`: drop leading and trailing whitespace. -/
def strip (s : List Char) : List Char :=
  ((s.dropWhile isSpaceChar).reverse.dropWhile isSpaceChar).reverse

/-- Python `needle in haystack` for strings: substring containment (`needle`
is a prefix of some suffix of `haystack`). -/
def containsSub (needle : List Char) : List Char → Bool
  | [] => needle.isEmpty
  | c :: rest => needle.isPrefixOf (c :: rest) || containsSub needle rest

/-- Word counting for Python `len(s.split())`: `inWord` tracks whether the
scan is inside a run of non-whitespace characters. -/
def wordCountAux (inWord : Bool) : List Char → Nat
  | [] => 0
  | c :: rest =>
    if isSpaceChar c then wordCountAux false rest
    else (if inWord then 0 else 1) + wordCountAux true rest

/-- Number of words of Python `str.split()` with no separator: the number of
maximal runs of non-whitespace characters. -/
def wordCount (s : List Char) : Nat :=
  wordCountAux false s

/-! ### Regex-lite: the construct set used by the source's patterns

Every rule pattern in `task_analysis_service.py` is an alternation of
"chains": literals joined by `.*` (e.g. `analyze.*screen`).  `re.search`
succeeds iff some alternative matches somewhere in the text.  A `.`
does not match a newline, so the gap strands of `.*` may not cross `'\n'`;
the scan for the start of the match crosses anything. -/

/-- Does the chain of literals `chain` (joined by `.*`) match starting
anywhere in `s`?  `crossNL = true` for the initial scan (searching the start
position), `false` inside a `.*` gap, which cannot cross a newline.
The recursion is structural on `fuel`, kept at least `s.length +
chain.length`: every recursive call lowers that sum (the chain loses a
literal while `s` does not grow, or `s` loses a character), so the base
case is reached only with `chain = []` and `s = []`, where the match
succeeds iff the chain is empty — which the base case returns. -/
def seqMatchF : Nat → List (List Char) → List Char → Bool → Bool
  | 0, chain, _, _ => chain.isEmpty
  | fuel + 1, chain, s, crossNL =>
    match chain with
    | [] => true
    | l :: ls =>
      match s with
      | [] => l.isEmpty && seqMatchF fuel ls [] false
      | c :: rest =>
        (l.isPrefixOf (c :: rest) && seqMatchF fuel ls (List.drop l.length (c :: rest)) false) ||
        ((crossNL || !(c = '\n')) && seqMatchF fuel (l :: ls) rest crossNL)

/-- The chain matcher with its fuel filled in. -/
def seqMatch (chain : List (List Char)) (s : List Char) (crossNL : Bool) : Bool :=
  seqMatchF (s.length + chain.length) chain s crossNL

/-- Python `re.search(pattern, s)` for an alternation-of-chains pattern. -/
def reSearch (alts : List (List (List Char))) (s : List Char) : Bool :=
  alts.any (fun a => seqMatch a s true)

end TTKi

namespace TTKi

/-! ### Classifier data model (`task_analysis_service.py`) -/

/-- `TaskType` from `src/domain/value_objects.py`. -/
inductive TaskType where
  | visionAnalysis
  | codeGeneration
  | fileOperations
  | terminalCommands
  | browserAutomation
  | planning
  | testing
  | optimization
deriving DecidableEq, Repr

/-- `TaskPriority` from `src/domain/value_objects.py`. -/
inductive TaskPriority where
  | low
  | medium
  | high
  | critical
deriving DecidableEq, Repr

/-- The numeric `.value` of a `TaskPriority` (LOW = 1 … CRITICAL = 4). -/
def TaskPriority.val : TaskPriority → Nat
  | .low => 1
  | .medium => 2
  | .high => 3
  | .critical => 4

/-- `TaskStatus` from `src/domain/value_objects.py`. -/
inductive TaskStatus where
  | pending
  | running
  | completed
  | failed
  | cancelled
deriving DecidableEq, Repr

/-- Shorthand for writing the rule tables: a string literal as a character
list. -/
def lit (s : String) : List Char :=
  s.toList

/-- One entry of `TaskAnalysisService._initialize_analysis_rules`: a pattern
(alternation of `.*`-joined literal chains), a task type, a priority, a
keyword list, a complexity factor and a base duration. -/
structure AnalysisRule where
  pattern : List (List (List Char))
  taskType : TaskType
  priority : TaskPriority
  keywords : List (List Char)
  complexityFactor : ℚ
  baseDuration : ℚ
deriving DecidableEq, Repr

/-- The rule table of `TaskAnalysisService._initialize_analysis_rules`,
in source order. -/
def analysisRules : List AnalysisRule :=
  [ { pattern := [[lit "screenshot"], [lit "capture"], [lit "analyze", lit "screen"],
                  [lit "what", lit "see"], [lit "visual"], [lit "image"]]
    , taskType := .visionAnalysis
    , priority := .high
    , keywords := [lit "screenshot", lit "analyze", lit "visual", lit "see",
                   lit "screen", lit "image"]
    , complexityFactor := 8/10
    , baseDuration := 2 }
  , { pattern := [[lit "write", lit "code"], [lit "create", lit "function"],
                  [lit "implement"], [lit "generate", lit "script"]]
    , taskType := .codeGeneration
    , priority := .high
    , keywords := [lit "write", lit "create", lit "implement", lit "generate",
                   lit "code", lit "function"]
    , complexityFactor := 12/10
    , baseDuration := 5 }
  , { pattern := [[lit "create", lit "file"], [lit "edit", lit "file"],
                  [lit "delete", lit "file"], [lit "move", lit "file"],
                  [lit "copy", lit "file"]]
    , taskType := .fileOperations
    , priority := .medium
    , keywords := [lit "create", lit "edit", lit "delete", lit "move",
                   lit "copy", lit "file"]
    , complexityFactor := 6/10
    , baseDuration := 1 }
  , { pattern := [[lit "run", lit "command"], [lit "execute"], [lit "terminal"],
                  [lit "bash"], [lit "shell"], [lit "install"]]
    , taskType := .terminalCommands
    , priority := .medium
    , keywords := [lit "run", lit "execute", lit "terminal", lit "command",
                   lit "bash", lit "shell"]
    , complexityFactor := 7/10
    , baseDuration := 3 }
  , { pattern := [[lit "open", lit "browser"], [lit "navigate", lit "to"],
                  [lit "click", lit "button"], [lit "fill", lit "form"], [lit "web"]]
    , taskType := .browserAutomation
    , priority := .medium
    , keywords := [lit "browser", lit "navigate", lit "click", lit "fill",
                   lit "web", lit "url"]
    , complexityFactor := 1
    , baseDuration := 4 }
  , { pattern := [[lit "plan"], [lit "strategy"], [lit "how", lit "to"],
                  [lit "steps", lit "for"], [lit "break", lit "down"]]
    , taskType := .planning
    , priority := .high
    , keywords := [lit "plan", lit "strategy", lit "how", lit "steps",
                   lit "break", lit "analyze"]
    , complexityFactor := 15/10
    , baseDuration := 3 }
  , { pattern := [[lit "test"], [lit "verify"], [lit "check"], [lit "validate"],
                  [lit "debug"], [lit "error"]]
    , taskType := .testing
    , priority := .high
    , keywords := [lit "test", lit "verify", lit "check", lit "validate",
                   lit "debug", lit "error"]
    , complexityFactor := 11/10
    , baseDuration := 6 }
  , { pattern := [[lit "optimize"], [lit "improve"], [lit "performance"],
                  [lit "faster"], [lit "efficient"]]
    , taskType := .optimization
    , priority := .low
    , keywords := [lit "optimize", lit "improve", lit "performance",
                   lit "faster", lit "efficient"]
    , complexityFactor := 18/10
    , baseDuration := 8 }
  ]

/-- The score the loop body of `TaskAnalysisService.analyze_task` computes for
one rule: +3 on pattern match against the lowered input, +0.5 per keyword
contained in the lowered input, +0.5 when the input has more than 10 words. -/
def ruleScore (rule : AnalysisRule) (input : List Char) : ℚ :=
  (if reSearch rule.pattern (lowerStr input) then 3 else 0)
    + ((rule.keywords.countP (fun kw => containsSub kw (lowerStr input)) : Nat) : ℚ) * (1/2)
    + (if 10 < wordCount input then 1/2 else 0)

/-- `TaskAnalysisResult` from `task_analysis_service.py`. -/
structure TaskAnalysisResult where
  taskType : TaskType
  priority : TaskPriority
  complexityFactor : ℚ
  keywords : List (List Char)
  estimatedDuration : ℚ
deriving DecidableEq, Repr

/-- The result built from a winning rule in `analyze_task`:
`estimated_duration = base_duration * complexity_factor`. -/
def mkRuleResult (rule : AnalysisRule) : TaskAnalysisResult :=
  { taskType := rule.taskType
  , priority := rule.priority
  , complexityFactor := rule.complexityFactor
  , keywords := rule.keywords
  , estimatedDuration := rule.baseDuration * rule.complexityFactor }

/-- The default fallback result of `analyze_task` (no rule scored above
zero): planning kind, medium priority, factor 1, fixed duration 3.0. -/
def fallbackResult : TaskAnalysisResult :=
  { taskType := .planning
  , priority := .medium
  , complexityFactor := 1
  , keywords := []
  , estimatedDuration := 3 }

/-- The best-match fold of `analyze_task`: keep `(best_match, best_score)`,
replacing only on a strictly greater score, starting from `(None, 0.0)`. -/
def bestMatchFold (input : List Char) (acc : Option AnalysisRule × ℚ)
    (rules : List AnalysisRule) : Option AnalysisRule × ℚ :=
  rules.foldl
    (fun acc rule => if acc.2 < ruleScore rule input then (some rule, ruleScore rule input) else acc)
    acc

/-- `TaskAnalysisService.analyze_task`. -/
def analyzeTask (input : List Char) : TaskAnalysisResult :=
  match bestMatchFold input (none, 0) analysisRules with
  | (some rule, _) => mkRuleResult rule
  | (none, _) => fallbackResult

/-! ### Decomposer (`task_analysis_service.py`) -/

/-- The substring markers of `TaskAnalysisService.is_complex_task`. -/
def complexityIndicators : List (List Char) :=
  [lit " and then ", lit " after ", lit " before ", lit " first ", lit " next ",
   lit " finally ", lit " step 1", lit " step 2", lit " then ", lit " afterwards "]

/-- `TaskAnalysisService.is_complex_task`: the lowered input contains one of
the fixed sequencing markers. -/
def isComplexTask (input : List Char) : Bool :=
  complexityIndicators.any (fun ind => containsSub ind (lowerStr input))

/-- A split separator of `TaskAnalysisService.extract_subtasks`: either a
word-boundary-delimited literal (the patterns of shape `\bLIT\b`) or the
pattern `\bstep \d+`. -/
inductive Sep where
  | word : List Char → Sep
  | stepNum
deriving DecidableEq, Repr

/-- The separator list of `extract_subtasks`, in source order. -/
def separators : List Sep :=
  [.word (lit "and then"), .word (lit "after"), .word (lit "next"),
   .word (lit "then"), .stepNum, .word (lit "finally"), .word (lit "afterwards")]

/-- Case-insensitive literal prefix test (`re.IGNORECASE`; the separator
literals are lowercase). -/
def prefixCI (w s : List Char) : Bool :=
  w.isPrefixOf (lowerStr s)

/-- Length of the run of leading ASCII digits (`\d+` is greedy). -/
def leadingDigits : List Char → Nat
  | [] => 0
  | c :: rest => if c.isDigit then 1 + leadingDigits rest else 0

/-- Try to match a separator at the current scan position.  `prevIsWord` is
whether the character just before the position is a `\w` character (false at
the start of the string), which decides the leading `\b`; every separator
literal starts and ends with a word character, so `\b` there means "the
neighbour is not a word character".  Returns the match length. -/
def matchSepAt (sep : Sep) (prevIsWord : Bool) (s : List Char) : Option Nat :=
  match sep with
  | .word w =>
    if prevIsWord then none
    else if prefixCI w s then
      match List.drop w.length s with
      | [] => some w.length
      | c :: _ => if isWordChar c then none else some w.length
    else none
  | .stepNum =>
    if prevIsWord then none
    else if prefixCI (lit "step ") s then
      let k := leadingDigits (List.drop 5 s)
      if 0 < k then some (5 + k) else none
    else none

/-- The scan of `re.split`: cut at each leftmost non-overlapping separator
match, otherwise advance one character.  `acc` holds the current piece in
reverse.  After a match the scan resumes past it; the last character of any
separator match is a word character, so `prevIsWord` resumes as `true`.
The recursion is structural on `fuel`, kept at least `s.length`: every
recursive call consumes at least one character of `s`, so the base case is
reached only with `s = []`, where the scan emits the final piece — which
the base case returns. -/
def resplitGo (sep : Sep) : Nat → Bool → List Char → List Char → List (List Char)
  | 0, _, acc, _ => [acc.reverse]
  | fuel + 1, prevIsWord, acc, s =>
    match s with
    | [] => [acc.reverse]
    | c :: rest =>
      match matchSepAt sep prevIsWord (c :: rest) with
      | some (k + 1) => acc.reverse :: resplitGo sep fuel true [] (List.drop (k + 1) (c :: rest))
      | _ => resplitGo sep fuel (isWordChar c) (c :: acc) rest

/-- `re.split(sep, part, flags=re.IGNORECASE)` for one separator. -/
def resplit (sep : Sep) (s : List Char) : List (List Char) :=
  resplitGo sep s.length false [] s

/-- The nested splitting loop of `extract_subtasks`: apply each separator in
turn to every part produced so far. -/
def splitAll (input : List Char) : List (List Char) :=
  separators.foldl (fun parts sep => parts.flatMap (resplit sep)) [input]

/-- `TaskAnalysisService.extract_subtasks`. -/
def extractSubtasks (input : List Char) : List (List Char) :=
  if !isComplexTask input then [input]
  else
    let subtasks := ((splitAll input).map strip).filter (fun p => !p.isEmpty)
    if 1 < subtasks.length then subtasks else [input]

end TTKi

namespace TTKi

/-! ### Task entity and its state machine (`src/domain/entities.py`)

`TaskEntity` is embedded without its timestamp fields (`created_at`,
`started_at`, `completed_at`), which no claim mentions; ids are `Nat`
(the uuid-based `TaskId.generate` becomes an injected id supply).  The
mutating methods `start`/`complete`/`fail` raise `ValueError` on a wrong
status before touching any field, so they are embedded as `Except`-valued
functions; an `Except.error` corresponds to the exception with the entity
left unchanged. -/

/-- `TaskEntity`. -/
structure Task where
  id : Nat
  description : List Char
  taskType : TaskType
  priority : TaskPriority
  status : TaskStatus
  dependencies : List Nat
  estimatedDuration : ℚ
  actualDuration : Option ℚ
  assignedAgentId : Option Nat
  result : Option (List Char)
  error : Option (List Char)
deriving DecidableEq, Repr

/-- A fresh `TaskEntity` as the dataclass defaults build it. -/
def mkTask (id : Nat) (description : List Char) (taskType : TaskType)
    (priority : TaskPriority) (dependencies : List Nat) (estimatedDuration : ℚ) : Task :=
  { id := id
  , description := description
  , taskType := taskType
  , priority := priority
  , status := .pending
  , dependencies := dependencies
  , estimatedDuration := estimatedDuration
  , actualDuration := none
  , assignedAgentId := none
  , result := none
  , error := none }

/-- `TaskEntity.start`: only from `PENDING`; records the executing agent and
moves to `RUNNING`. -/
def Task.start (t : Task) (agentId : Nat) : Except (List Char) Task :=
  if t.status ≠ .pending then .error (lit "Cannot start task in status")
  else .ok { t with status := .running, assignedAgentId := some agentId }

/-- `TaskEntity.complete`: only from `RUNNING`; records the result payload
and the duration and moves to `COMPLETED`. -/
def Task.complete (t : Task) (result : List Char) (duration : ℚ) :
    Except (List Char) Task :=
  if t.status ≠ .running then .error (lit "Cannot complete task in status")
  else .ok { t with status := .completed, result := some result,
                    actualDuration := some duration }

/-- `TaskEntity.fail`: only from `RUNNING`; records the error description and
the duration and moves to `FAILED`. -/
def Task.fail (t : Task) (error : List Char) (duration : ℚ) :
    Except (List Char) Task :=
  if t.status ≠ .running then .error (lit "Cannot fail task in status")
  else .ok { t with status := .failed, error := some error,
                    actualDuration := some duration }

/-- `TaskEntity.can_start`: every dependency id is among the completed ids. -/
def canStart (t : Task) (completedIds : List Nat) : Bool :=
  t.dependencies.all (fun dep => completedIds.contains dep)

/-! ### Plan building (`execution_planning_service.py`) -/

/-- `ExecutionPlanningService._create_task_entities`, with the uuid supply
made explicit: task `i` gets id `gen i`, its description is stripped, its
type/priority/duration come from `analyze_task`, and its dependency list is
empty for the first task and `[previous task's id]` afterwards.  The
recursion carries the index and the previously created task's id, mirroring
the `tasks[i-1].id` access of the loop. -/
def createTaskEntitiesGo (gen : Nat → Nat) (i : Nat) (prevId : Option Nat) :
    List (List Char) → List Task
  | [] => []
  | d :: ds =>
    let analysis := analyzeTask d
    let deps : List Nat := match prevId with
      | none => []
      | some p => [p]
    let t := mkTask (gen i) (strip d) analysis.taskType analysis.priority deps
      analysis.estimatedDuration
    t :: createTaskEntitiesGo gen (i + 1) (some t.id) ds

/-- `ExecutionPlanningService._create_task_entities`. -/
def createTaskEntities (gen : Nat → Nat) (descriptions : List (List Char)) : List Task :=
  createTaskEntitiesGo gen 0 none descriptions

/-- The per-kind complexity weight table of
`ExecutionPlanningService._calculate_complexity_score` (the `.get(_, 1.0)`
default is unreachable: every `TaskType` is a key). -/
def typeComplexity : TaskType → ℚ
  | .visionAnalysis => 8/10
  | .codeGeneration => 12/10
  | .fileOperations => 6/10
  | .terminalCommands => 7/10
  | .browserAutomation => 1
  | .planning => 15/10
  | .testing => 11/10
  | .optimization => 18/10

/-- `ExecutionPlanningService._calculate_complexity_score`:
`0.3·count + 0.2·Σ deps + 0.1·Σ duration + 0.1·Σ kind-weight`
(0 for an empty task list). -/
def calculateComplexityScore (tasks : List Task) : ℚ :=
  if tasks.isEmpty then 0
  else
    let baseScore := (tasks.length : ℚ) * (3/10)
    let dependencyScore := ((tasks.map (fun t => (t.dependencies.length : ℚ))).sum) * (2/10)
    let durationScore := ((tasks.map (fun t => t.estimatedDuration)).sum) * (1/10)
    let typeScore := ((tasks.map (fun t => typeComplexity t.taskType)).sum) * (1/10)
    baseScore + dependencyScore + durationScore + typeScore

/-- `PlannerAgent._calculate_complexity_score` (`agents/planner_agent.py`):
`0.2·count + 0.1·Σ deps + 0.05·Σ duration`, with no kind term. -/
def plannerComplexityScore (tasks : List Task) : ℚ :=
  if tasks.isEmpty then 0
  else
    let baseScore := (tasks.length : ℚ) * (2/10)
    let dependencyScore := ((tasks.map (fun t => (t.dependencies.length : ℚ))).sum) * (1/10)
    let durationScore := ((tasks.map (fun t => t.estimatedDuration)).sum) * (5/100)
    baseScore + dependencyScore + durationScore

/-- `ExecutionPlanningService._identify_parallel_groups`: the ids of the
tasks with no dependencies form one group, reported only when there are at
least two of them. -/
def identifyParallelGroups (tasks : List Task) : List (List Nat) :=
  let independentTasks := (tasks.filter (fun t => t.dependencies.isEmpty)).map (fun t => t.id)
  if 1 < independentTasks.length then [independentTasks] else []

/-! ### Agent registry entries and selection scoring
(`agent_orchestrator.py` and `planner_agent.py`)

`AgentEntity` is embedded with the fields the scoring and selection logic
reads.  `performance_metrics['success_rate']` may be absent, hence an
`Option`; `datetime.now() - agent.last_activity` is snapshot as
`secondsSinceActivity`. -/

/-- The `status` string of an `AgentEntity` (only these two values are ever
assigned). -/
inductive AgentStatus where
  | available
  | busy
deriving DecidableEq, Repr

/-- `AgentEntity`, restricted to the fields scoring and selection read.
`capabilities` holds task-type capability strings, compared against
`task.task_type.value`, so it is embedded as a list of `TaskType`. -/
structure Agent where
  id : Nat
  status : AgentStatus
  capabilities : List TaskType
  successRate : Option ℚ
  queueLen : Nat
  secondsSinceActivity : ℚ
deriving DecidableEq, Repr

/-- `AgentEntity.can_handle_task`: the task's type is among the agent's
capability strings. -/
def canHandleTask (a : Agent) (taskType : TaskType) : Bool :=
  a.capabilities.contains taskType

/-- `AgentOrchestrator._calculate_agent_score`: 50·success_rate (only when
the metric is present) − 10 per queued task + 30 for the capability match
+ 20 for HIGH/CRITICAL priority + 10 when active within the last minute,
clamped below at 0. -/
def calculateAgentScore (a : Agent) (t : Task) : ℚ :=
  let score : ℚ :=
    (match a.successRate with
      | some sr => sr * 50
      | none => 0)
    - (a.queueLen : ℚ) * 10
    + (if canHandleTask a t.taskType then 30 else 0)
    + (if 3 ≤ t.priority.val then 20 else 0)
    + (if a.secondsSinceActivity < 60 then 10 else 0)
  max 0 score

/-- `PlannerAgent._calculate_agent_score` (`agents/planner_agent.py`):
50·success_rate (default 0.5) − 5 per queued task + 30 for the capability
match; no priority, recency or clamping terms. -/
def plannerAgentScore (a : Agent) (t : Task) : ℚ :=
  (match a.successRate with
    | some sr => sr
    | none => 1/2) * 50
  - (a.queueLen : ℚ) * 5
  + (if canHandleTask a t.taskType then 30 else 0)

/-- The candidate filter of `AgentOrchestrator._select_best_agent`: available
status and a declared capability for the task's type. -/
def isCandidate (a : Agent) (t : Task) : Bool :=
  a.status = .available && canHandleTask a t.taskType

/-- First maximum of a candidate list by score.  The source sorts the scored
candidates with `list.sort(key=..., reverse=True)` — a stable descending
sort — and takes the head, which is exactly the first candidate attaining
the maximal score. -/
def pickFirstMax (t : Task) : List Agent → Option Agent
  | [] => none
  | a :: rest =>
    match pickFirstMax t rest with
    | none => some a
    | some b =>
      if calculateAgentScore a t < calculateAgentScore b t then some b else some a

/-- `AgentOrchestrator._select_best_agent` over a registry snapshot, `None`
when no agent qualifies. -/
def selectBestAgent (agents : List Agent) (t : Task) : Option Agent :=
  pickFirstMax t (agents.filter (fun a => isCandidate a t))

end TTKi
namespace TTKi

/-! ### Cycle detection (`AgentOrchestrator._has_circular_dependencies`)

The source runs a depth-first search with a mutable `visited` set and a
`rec_stack` on-stack marker.  The embedding threads `visited` explicitly and
bounds the recursion depth by `tasks.length + 1`, which is never reached:
every recursive descent first adds a task id that is a key of `task_map` and
was not yet visited to `visited`, and `visited` only grows, so a chain of
nested descents has pairwise distinct in-map ids and length at most the
number of tasks; the innermost call at depth `tasks.length + 1` therefore
still has fuel left, and the `fuel = 0` branch is unreachable.  One
behavioural no-op restructuring: the source adds an id with no entry in
`task_map` to `visited` and returns `False` after iterating no
dependencies; the embedding returns that directly. -/

/-- The ids of a task list. -/
def taskIds (tasks : List Task) : List Nat :=
  tasks.map (fun t => t.id)

/-- The `task_map` dict lookup (`{task.id: task for task in tasks}`): for a
duplicated id the later entry wins, hence the reversed search. -/
def findTask (tasks : List Task) (id : Nat) : Option Task :=
  tasks.reverse.find? (fun t => t.id = id)

/-- The dependency loop of `has_cycle`: recurse (through `go`, the one-level
shallower search) into each dependency, returning `True` as soon as one
reports a cycle and threading the grown `visited` set otherwise. -/
def foldDeps (go : List Nat → List Nat → Nat → Bool × List Nat)
    (visited recStack : List Nat) : List Nat → Bool × List Nat
  | [] => (false, visited)
  | d :: ds =>
    let r := go visited recStack d
    if r.1 then r else foldDeps go r.2 recStack ds

/-- The inner `has_cycle(task_id, task_map)` of
`_has_circular_dependencies`: an on-stack id means a cycle; an
already-visited id is settled; otherwise mark visited, push the id on the
recursion stack and scan the task's dependencies.  Written with `Nat.rec`
over the (unreachable, see above) depth bound so that the definition
computes by kernel reduction. -/
def hasCycleGo (tasks : List Task) (fuel : Nat) : List Nat → List Nat → Nat → Bool × List Nat :=
  Nat.rec (motive := fun _ => List Nat → List Nat → Nat → Bool × List Nat)
    (fun visited _ _ => (false, visited))
    (fun _ go visited recStack id =>
      if id ∈ recStack then (true, visited)
      else if id ∈ visited then (false, visited)
      else
        match findTask tasks id with
        | none => (false, id :: visited)
        | some t => foldDeps go (id :: visited) (id :: recStack) t.dependencies)
    fuel

/-- The driver loop of `_has_circular_dependencies`: run the DFS from every
task id not yet visited, short-circuiting on the first cycle. -/
def hasCircularGo (tasks : List Task) (visited : List Nat) : List Task → Bool
  | [] => false
  | t :: ts =>
    if t.id ∈ visited then hasCircularGo tasks visited ts
    else
      let r := hasCycleGo tasks (tasks.length + 1) visited [] t.id
      if r.1 then true else hasCircularGo tasks r.2 ts

/-- `AgentOrchestrator._has_circular_dependencies`. -/
def hasCircularDependencies (tasks : List Task) : Bool :=
  hasCircularGo tasks [] tasks

end TTKi

namespace TTKi

/-! ### The driving loop (`AgentOrchestrator.execute_plan`)

The loop is embedded as a step function on an explicit state: the plan's
task list plus the two bookkeeping id lists `completed_task_ids` and
`failed_task_ids`.  External effects are parameters: the registry snapshot
`agents` (the registry's capability/status fields are not changed by the
loop — metrics updates only influence which capable agent wins the score,
never whether one exists) and an executor outcome oracle
`outcome : task id → Bool` standing for the success flag of the
`TaskResult` that `_execute_task_with_agent` produces for that task (the
method catches executor exceptions internally and converts them to a failed
`TaskResult`, so with distinct agents per batch the `gather` results are
always `TaskResult`s).

The source pairs `results[i]` — the result of the i-th *dispatched* task —
with `ready_tasks[i]`, the i-th *ready* task.  When some ready tasks found
no agent these lists differ; the embedding reproduces that pairing with
`ready.zip dispatched`.

One driving-loop iteration maps to one `step`; `asyncio.sleep` branches
return `.next` with the state unchanged. -/

/-- `ExecutionPlanEntity.get_ready_tasks`: pending tasks whose dependencies
are all in the completed-ids list. -/
def getReadyTasks (tasks : List Task) (completedIds : List Nat) : List Task :=
  tasks.filter (fun t => t.status = .pending && canStart t completedIds)

/-- The `pending_tasks` list comprehension of `execute_plan`. -/
def pendingTasks (tasks : List Task) : List Task :=
  tasks.filter (fun t => t.status = .pending)

/-- Loop state of `execute_plan`. -/
structure OrchestratorState where
  tasks : List Task
  completedIds : List Nat
  failedIds : List Nat
deriving DecidableEq, Repr

/-- The state at the top of `execute_plan`: the plan's tasks, empty
bookkeeping lists. -/
def initState (tasks : List Task) : OrchestratorState :=
  ⟨tasks, [], []⟩

/-- The effect of `_execute_task_with_agent` on a dispatched task: `start`
with the selected agent, then `complete` or `fail` according to the
executor outcome. -/
def markExecuted (agents : List Agent) (outcome : Nat → Bool) (t : Task) : Task :=
  let assigned := (selectBestAgent agents t).map (fun a => a.id)
  if outcome t.id then
    { t with status := .completed, assignedAgentId := assigned,
             result := some (lit "ok") }
  else
    { t with status := .failed, assignedAgentId := assigned,
             error := some (lit "executor failure") }

/-- Result of one loop iteration: `done` for the two `break`s (all tasks
processed, or a dependency cycle detected), `next` for `continue`. -/
inductive StepResult where
  | done : OrchestratorState → StepResult
  | next : OrchestratorState → StepResult
deriving DecidableEq, Repr

/-- One iteration of the `while True` loop of `execute_plan`. -/
def step (agents : List Agent) (outcome : Nat → Bool) (s : OrchestratorState) :
    StepResult :=
  let ready := getReadyTasks s.tasks s.completedIds
  if ready.isEmpty then
    let pending := pendingTasks s.tasks
    if pending.isEmpty then .done s
    else if hasCircularDependencies pending then .done s
    else .next s
  else
    let dispatched := ready.filter (fun t => (selectBestAgent agents t).isSome)
    if dispatched.isEmpty then .next s
    else
      let dispatchedIds := dispatched.map (fun t => t.id)
      let tasks' := s.tasks.map
        (fun t => if dispatchedIds.contains t.id then markExecuted agents outcome t else t)
      let pairs := ready.zip dispatched
      .next
        { tasks := tasks'
        , completedIds :=
            s.completedIds ++ (pairs.filter (fun p => outcome p.2.id)).map (fun p => p.1.id)
        , failedIds :=
            s.failedIds ++ (pairs.filter (fun p => !(outcome p.2.id))).map (fun p => p.1.id) }

/-- Run the loop for at most `fuel` iterations; `none` means the loop was
still running when the fuel ran out. -/
def runExec (agents : List Agent) (outcome : Nat → Bool) :
    Nat → OrchestratorState → Option OrchestratorState
  | 0, _ => none
  | fuel + 1, s =>
    match step agents outcome s with
    | .done s' => some s'
    | .next s' => runExec agents outcome fuel s'

/-- The loop of `execute_plan` terminates: some finite number of iterations
reaches a `break`. -/
def executeTerminates (agents : List Agent) (outcome : Nat → Bool)
    (s : OrchestratorState) : Prop :=
  ∃ fuel, (runExec agents outcome fuel s).isSome

/-- The state after `n` iterations, treating the `done` state as absorbing
(used to speak about every state the loop ever reaches). -/
def stepIter (agents : List Agent) (outcome : Nat → Bool) (s : OrchestratorState) :
    Nat → OrchestratorState
  | 0 => s
  | n + 1 =>
    match step agents outcome (stepIter agents outcome s n) with
    | .done s' => s'
    | .next s' => s'

/-- No state the loop ever reaches holds a failed task. -/
def neverFails (agents : List Agent) (outcome : Nat → Bool)
    (s : OrchestratorState) : Prop :=
  ∀ n, ((stepIter agents outcome s n).tasks.all (fun t => !(t.status = .failed))) = true

/-- The result dict of `execute_plan` (its loop-derived fields). -/
structure ExecutionReport where
  success : Bool
  completedTasks : List Nat
  failedTasks : List Nat
  successRate : ℚ
deriving DecidableEq, Repr

/-- The report built after the loop:
`success_rate = completed / total` (0 for an empty plan) and
`success = success_rate > 0.5`. -/
def mkReport (s : OrchestratorState) : ExecutionReport :=
  let rate : ℚ :=
    if s.tasks.isEmpty then 0 else (s.completedIds.length : ℚ) / (s.tasks.length : ℚ)
  { success := (1/2 : ℚ) < rate
  , completedTasks := s.completedIds
  , failedTasks := s.failedIds
  , successRate := rate }

end TTKi

namespace TTKi

/-! ### C9 — the `TaskEntity` status machine -/

/-- C9: a Task's status only moves along Pending → Running (via `start`,
which records the assigned executor identity) and Running → Completed /
Running → Failed (via `complete` / `fail`, which record the result payload
or the error description); invoking any of the three transitions from any
other status raises `ValueError` (an `error` result, the entity unchanged),
so Completed and Failed are final with no re-entry. -/
theorem task_status_machine (t : Task) (a : Nat) (r e : List Char) (d : ℚ) :
    (t.status = .pending →
      t.start a = .ok { t with status := .running, assignedAgentId := some a }) ∧
    (t.status ≠ .pending → t.start a = .error (lit "Cannot start task in status")) ∧
    (t.status = .running →
      t.complete r d =
          .ok { t with status := .completed, result := some r, actualDuration := some d } ∧
        t.fail e d =
          .ok { t with status := .failed, error := some e, actualDuration := some d }) ∧
    (t.status ≠ .running →
      t.complete r d = .error (lit "Cannot complete task in status") ∧
        t.fail e d = .error (lit "Cannot fail task in status")) ∧
    ((t.status = .completed ∨ t.status = .failed) →
      (∀ t', t.start a ≠ .ok t') ∧ (∀ t', t.complete r d ≠ .ok t') ∧
        (∀ t', t.fail e d ≠ .ok t')) := by
  cases h : t.status <;>
    simp [Task.start, Task.complete, Task.fail, h]

/-- Witness for C9 at a concrete pending task. -/
theorem task_status_machine_witness :
    ((mkTask 1 [] .planning .low [] 0).status = .pending →
      (mkTask 1 [] .planning .low [] 0).start 5 =
        .ok { mkTask 1 [] .planning .low [] 0 with
                status := .running, assignedAgentId := some 5 }) ∧
    ((mkTask 1 [] .planning .low [] 0).status ≠ .pending →
      (mkTask 1 [] .planning .low [] 0).start 5 =
        .error (lit "Cannot start task in status")) ∧
    ((mkTask 1 [] .planning .low [] 0).status = .running →
      (mkTask 1 [] .planning .low [] 0).complete (lit "r") 2 =
          .ok { mkTask 1 [] .planning .low [] 0 with
                  status := .completed, result := some (lit "r"), actualDuration := some 2 } ∧
        (mkTask 1 [] .planning .low [] 0).fail (lit "e") 2 =
          .ok { mkTask 1 [] .planning .low [] 0 with
                  status := .failed, error := some (lit "e"), actualDuration := some 2 }) ∧
    ((mkTask 1 [] .planning .low [] 0).status ≠ .running →
      (mkTask 1 [] .planning .low [] 0).complete (lit "r") 2 =
          .error (lit "Cannot complete task in status") ∧
        (mkTask 1 [] .planning .low [] 0).fail (lit "e") 2 =
          .error (lit "Cannot fail task in status")) ∧
    (((mkTask 1 [] .planning .low [] 0).status = .completed ∨
        (mkTask 1 [] .planning .low [] 0).status = .failed) →
      (∀ t', (mkTask 1 [] .planning .low [] 0).start 5 ≠ .ok t') ∧
        (∀ t', (mkTask 1 [] .planning .low [] 0).complete (lit "r") 2 ≠ .ok t') ∧
        (∀ t', (mkTask 1 [] .planning .low [] 0).fail (lit "e") 2 ≠ .ok t')) :=
  task_status_machine (mkTask 1 [] .planning .low [] 0) 5 (lit "r") (lit "e") 2

/-! ### C8 — the complexity-score formula -/

/-- The complexity formula exactly as §4.3 of the specification states it:
`0.2·taskCount + 0.1·Σ dependencies + 0.05·Σ estimatedDuration
 + 0.1·Σ perKindWeight` (for comparison against the two source formulas). -/
def specComplexityScore (tasks : List Task) : ℚ :=
  (tasks.length : ℚ) * (2/10)
    + ((tasks.map fun t => (t.dependencies.length : ℚ)).sum) * (1/10)
    + ((tasks.map fun t => t.estimatedDuration).sum) * (5/100)
    + ((tasks.map fun t => typeComplexity t.taskType).sum) * (1/10)

/-- A one-element plan distinguishing all three complexity formulas:
a file-operations task with no dependencies and estimated duration 1. -/
def fileOpTask : Task :=
  mkTask 1 [] .fileOperations .medium [] 1

/-- C8, counterexample: on a single dependency-free file-operations task of
duration 1, the planning service computes 0.46 and the planner agent 0.25,
while the claimed formula gives 0.31 — the claim matches neither source
implementation. -/
theorem complexity_score_counterexample :
    calculateComplexityScore [fileOpTask] = 46/100 ∧
    plannerComplexityScore [fileOpTask] = 25/100 ∧
    specComplexityScore [fileOpTask] = 31/100 ∧
    calculateComplexityScore [fileOpTask] ≠ specComplexityScore [fileOpTask] ∧
    plannerComplexityScore [fileOpTask] ≠ specComplexityScore [fileOpTask] := by
  refine ⟨by decide, by decide, by decide, by decide, by decide⟩

/-- C8, amended: for every non-empty task list,
`ExecutionPlanningService._calculate_complexity_score` equals
`0.3·taskCount + 0.2·Σ dependencies + 0.1·Σ estimatedDuration
 + 0.1·Σ perKindWeight`, and `PlannerAgent._calculate_complexity_score`
equals `0.2·taskCount + 0.1·Σ dependencies + 0.05·Σ estimatedDuration`
with no per-kind term. -/
theorem complexity_score_formula (tasks : List Task) (h : tasks ≠ []) :
    calculateComplexityScore tasks =
      (tasks.length : ℚ) * (3/10)
        + ((tasks.map fun t => (t.dependencies.length : ℚ)).sum) * (2/10)
        + ((tasks.map fun t => t.estimatedDuration).sum) * (1/10)
        + ((tasks.map fun t => typeComplexity t.taskType).sum) * (1/10) ∧
    plannerComplexityScore tasks =
      (tasks.length : ℚ) * (2/10)
        + ((tasks.map fun t => (t.dependencies.length : ℚ)).sum) * (1/10)
        + ((tasks.map fun t => t.estimatedDuration).sum) * (5/100) := by
  have hne : tasks.isEmpty = false := by
    cases tasks with
    | nil => exact absurd rfl h
    | cons a l => rfl
  constructor
  · simp only [calculateComplexityScore, hne, Bool.false_eq_true, if_false]
  · simp only [plannerComplexityScore, hne, Bool.false_eq_true, if_false]

/-- Witness for C8's amended formula at the concrete one-task plan. -/
theorem complexity_score_formula_witness :
    [fileOpTask] ≠ [] ∧
    (calculateComplexityScore [fileOpTask] =
        (([fileOpTask].length : ℚ)) * (3/10)
          + (([fileOpTask].map fun t => (t.dependencies.length : ℚ)).sum) * (2/10)
          + (([fileOpTask].map fun t => t.estimatedDuration).sum) * (1/10)
          + (([fileOpTask].map fun t => typeComplexity t.taskType).sum) * (1/10) ∧
      plannerComplexityScore [fileOpTask] =
        (([fileOpTask].length : ℚ)) * (2/10)
          + (([fileOpTask].map fun t => (t.dependencies.length : ℚ)).sum) * (1/10)
          + (([fileOpTask].map fun t => t.estimatedDuration).sum) * (5/100)) :=
  ⟨by decide, complexity_score_formula [fileOpTask] (by decide)⟩

end TTKi

namespace TTKi

/-! ### Fold lemmas for the classifier's best-match loop -/

theorem ruleScore_nonneg (rule : AnalysisRule) (input : List Char) :
    0 ≤ ruleScore rule input := by
  unfold ruleScore
  have h1 : (0 : ℚ) ≤ (if reSearch rule.pattern (lowerStr input) then 3 else 0) := by
    split <;> norm_num
  have h2 : (0 : ℚ) ≤
      ((rule.keywords.countP (fun kw => containsSub kw (lowerStr input)) : Nat) : ℚ) * (1/2) := by
    have := Nat.cast_nonneg (α := ℚ)
      (rule.keywords.countP (fun kw => containsSub kw (lowerStr input)))
    nlinarith
  have h3 : (0 : ℚ) ≤ (if 10 < wordCount input then 1/2 else 0) := by
    split <;> norm_num
  linarith

theorem bestMatchFold_no_update (input : List Char) (rules : List AnalysisRule)
    (acc : Option AnalysisRule × ℚ)
    (h : ∀ r ∈ rules, ruleScore r input ≤ acc.2) :
    bestMatchFold input acc rules = acc := by
  induction rules with
  | nil => rfl
  | cons r rest ih =>
    simp only [bestMatchFold, List.foldl_cons]
    rw [if_neg (not_lt.mpr (h r (List.mem_cons_self r rest)))]
    exact ih fun r' hr' => h r' (List.mem_cons_of_mem r hr')

theorem bestMatchFold_cases (input : List Char) (rules : List AnalysisRule)
    (acc : Option AnalysisRule × ℚ) :
    (bestMatchFold input acc rules = acc ∧ ∀ r ∈ rules, ruleScore r input ≤ acc.2) ∨
    (∃ r ∈ rules, (bestMatchFold input acc rules).1 = some r ∧
      (bestMatchFold input acc rules).2 = ruleScore r input ∧ acc.2 < ruleScore r input) := by
  induction rules generalizing acc with
  | nil => exact Or.inl ⟨rfl, by simp⟩
  | cons r rest ih =>
    by_cases hlt : acc.2 < ruleScore r input
    · have hstep : bestMatchFold input acc (r :: rest) =
          bestMatchFold input (some r, ruleScore r input) rest := by
        simp only [bestMatchFold, List.foldl_cons, if_pos hlt]
      rcases ih (some r, ruleScore r input) with ⟨heq, hall⟩ | ⟨r', hmem, h1, h2, h3⟩
      · refine Or.inr ⟨r, List.mem_cons_self r rest, ?_, ?_, hlt⟩
        · rw [hstep, heq]
        · rw [hstep, heq]
      · refine Or.inr ⟨r', List.mem_cons_of_mem r hmem, ?_, ?_, ?_⟩
        · rw [hstep]; exact h1
        · rw [hstep]; exact h2
        · exact lt_trans hlt h3
    · have hstep : bestMatchFold input acc (r :: rest) = bestMatchFold input acc rest := by
        simp only [bestMatchFold, List.foldl_cons, if_neg hlt]
      rcases ih acc with ⟨heq, hall⟩ | ⟨r', hmem, h1, h2, h3⟩
      · refine Or.inl ⟨by rw [hstep, heq], ?_⟩
        intro r' hr'
        rcases List.mem_cons.mp hr' with rfl | hr'
        · exact not_lt.mp hlt
        · exact hall r' hr'
      · exact Or.inr ⟨r', List.mem_cons_of_mem r hmem,
          by rw [hstep]; exact h1, by rw [hstep]; exact h2, h3⟩

theorem analyzeTask_of_fold_none (input : List Char)
    (h : (bestMatchFold input (none, 0) analysisRules).1 = none) :
    analyzeTask input = fallbackResult := by
  unfold analyzeTask
  rcases hbm : bestMatchFold input (none, 0) analysisRules with ⟨b, sc⟩
  rw [hbm] at h
  simp only at h
  subst h
  rfl

theorem analyzeTask_of_fold_some (input : List Char) (r : AnalysisRule)
    (h : (bestMatchFold input (none, 0) analysisRules).1 = some r) :
    analyzeTask input = mkRuleResult r := by
  unfold analyzeTask
  rcases hbm : bestMatchFold input (none, 0) analysisRules with ⟨b, sc⟩
  rw [hbm] at h
  simp only at h
  subst h
  rfl

/-! ### C6 — classifier duration and fallback -/

/-- C6: `analyze_task` either returns the result of one of its rules — whose
estimated duration is that rule's base duration times its complexity
factor — or the fallback result (planning kind, medium priority, fixed
duration 3.0); and whenever no rule scores above zero it returns exactly
that fallback. -/
theorem classifier_duration_and_fallback (input : List Char) :
    ((∀ r ∈ analysisRules, ruleScore r input ≤ 0) → analyzeTask input = fallbackResult) ∧
    (analyzeTask input = fallbackResult ∨
      ∃ r ∈ analysisRules, analyzeTask input = mkRuleResult r ∧
        (analyzeTask input).estimatedDuration = r.baseDuration * r.complexityFactor) := by
  constructor
  · intro hall
    apply analyzeTask_of_fold_none
    rw [bestMatchFold_no_update input analysisRules (none, 0) hall]
  · rcases bestMatchFold_cases input analysisRules (none, 0) with ⟨heq, _⟩ | ⟨r, hmem, h1, _, _⟩
    · exact Or.inl (analyzeTask_of_fold_none input (by rw [heq]))
    · refine Or.inr ⟨r, hmem, analyzeTask_of_fold_some input r h1, ?_⟩
      rw [analyzeTask_of_fold_some input r h1]
      rfl

/-- Witness for C6 at a concrete input. -/
theorem classifier_duration_and_fallback_witness :
    ((∀ r ∈ analysisRules, ruleScore r (lit "take a screenshot") ≤ 0) →
      analyzeTask (lit "take a screenshot") = fallbackResult) ∧
    (analyzeTask (lit "take a screenshot") = fallbackResult ∨
      ∃ r ∈ analysisRules, analyzeTask (lit "take a screenshot") = mkRuleResult r ∧
        (analyzeTask (lit "take a screenshot")).estimatedDuration =
          r.baseDuration * r.complexityFactor) :=
  classifier_duration_and_fallback (lit "take a screenshot")

end TTKi

namespace TTKi

/-! ### C10 — the length bonus prevents the fallback on long inputs -/

theorem ruleScore_of_no_match (r : AnalysisRule) (input : List Char)
    (hp : reSearch r.pattern (lowerStr input) = false)
    (hk : r.keywords.countP (fun kw => containsSub kw (lowerStr input)) = 0) :
    ruleScore r input = if 10 < wordCount input then 1/2 else 0 := by
  unfold ruleScore
  rw [hp, hk]
  norm_num

theorem ruleScore_pos_of_long (r : AnalysisRule) (input : List Char)
    (hw : 10 < wordCount input) : 0 < ruleScore r input := by
  unfold ruleScore
  rw [if_pos hw]
  have h1 : (0 : ℚ) ≤ (if reSearch r.pattern (lowerStr input) then 3 else 0) := by
    split <;> norm_num
  have h2 : (0 : ℚ) ≤
      ((r.keywords.countP (fun kw => containsSub kw (lowerStr input)) : Nat) : ℚ) * (1/2) := by
    have := Nat.cast_nonneg (α := ℚ)
      (r.keywords.countP (fun kw => containsSub kw (lowerStr input)))
    nlinarith
  linarith

theorem analysisRules_keywords_ne_nil : ∀ r ∈ analysisRules, r.keywords ≠ [] := by decide

theorem mkRuleResult_ne_fallback (r : AnalysisRule) (h : r.keywords ≠ []) :
    mkRuleResult r ≠ fallbackResult := by
  intro he
  exact h (congrArg TaskAnalysisResult.keywords he)

theorem analysisRules_shape :
    ∃ r0 rest, analysisRules = r0 :: rest ∧ r0.taskType = .visionAnalysis ∧
      r0.priority = .high :=
  ⟨_, _, rfl, rfl, rfl⟩

theorem ruleScore_eq_zero_parts (r : AnalysisRule) (input : List Char)
    (h : ruleScore r input = 0) :
    reSearch r.pattern (lowerStr input) = false ∧
    r.keywords.countP (fun kw => containsSub kw (lowerStr input)) = 0 ∧
    ¬(10 < wordCount input) := by
  have hc := Nat.cast_nonneg (α := ℚ)
    (r.keywords.countP (fun kw => containsSub kw (lowerStr input)))
  unfold ruleScore at h
  by_cases hp : reSearch r.pattern (lowerStr input) = true
  · exfalso
    rw [if_pos hp] at h
    have h3 : (0 : ℚ) ≤ (if 10 < wordCount input then 1/2 else 0) := by
      split <;> norm_num
    nlinarith
  · have hp' : reSearch r.pattern (lowerStr input) = false := Bool.eq_false_iff.mpr hp
    rw [hp'] at h
    norm_num at h
    by_cases hw : 10 < wordCount input
    · exfalso
      rw [if_pos hw] at h
      nlinarith
    · rw [if_neg hw] at h
      refine ⟨hp', ?_, hw⟩
      have hz : ((r.keywords.countP (fun kw => containsSub kw (lowerStr input)) : Nat) : ℚ) = 0 := by
        nlinarith
      exact_mod_cast hz

theorem bestMatchFold_all_eq_head (input : List Char) (s : ℚ) (r0 : AnalysisRule)
    (rest : List AnalysisRule) (hr : analysisRules = r0 :: rest)
    (hs : ∀ r ∈ analysisRules, ruleScore r input = s) (hpos : 0 < s) :
    bestMatchFold input (none, 0) analysisRules = (some r0, s) := by
  rw [hr]
  have h0 : ruleScore r0 input = s := hs r0 (by rw [hr]; exact List.mem_cons_self r0 rest)
  have hstep : bestMatchFold input (none, 0) (r0 :: rest) =
      bestMatchFold input (some r0, ruleScore r0 input) rest := by
    simp only [bestMatchFold, List.foldl_cons]
    rw [if_pos]
    exact h0 ▸ hpos
  rw [hstep, h0]
  apply bestMatchFold_no_update
  intro r' hr'
  rw [hs r' (by rw [hr]; exact List.mem_cons_of_mem r0 hr')]

end TTKi

namespace TTKi

/-- C10: on any input longer than 10 whitespace-separated words the
classifier never returns the planning/medium fallback (the 0.5 length bonus
makes every rule score positive); when additionally no rule's pattern or
keyword matches, the first rule of the table — vision analysis, high
priority — wins; and the fallback is returned only for inputs of at most 10
words matching no pattern and no keyword of any rule. -/
theorem classifier_length_bonus (input : List Char) :
    (10 < wordCount input → analyzeTask input ≠ fallbackResult) ∧
    (10 < wordCount input →
      (∀ r ∈ analysisRules, reSearch r.pattern (lowerStr input) = false ∧
        r.keywords.countP (fun kw => containsSub kw (lowerStr input)) = 0) →
      ∃ r0, analysisRules.head? = some r0 ∧ analyzeTask input = mkRuleResult r0 ∧
        r0.taskType = .visionAnalysis ∧ r0.priority = .high) ∧
    (analyzeTask input = fallbackResult →
      wordCount input ≤ 10 ∧
      ∀ r ∈ analysisRules, reSearch r.pattern (lowerStr input) = false ∧
        r.keywords.countP (fun kw => containsSub kw (lowerStr input)) = 0) := by
  obtain ⟨r0, rest, hshape, hvision, hhigh⟩ := analysisRules_shape
  have hr0mem : r0 ∈ analysisRules := by
    rw [hshape]; exact List.mem_cons_self r0 rest
  refine ⟨?_, ?_, ?_⟩
  · intro hw hfb
    rcases bestMatchFold_cases input analysisRules (none, 0) with ⟨heq, hall⟩ | ⟨r, hmem, h1, _, _⟩
    · exact absurd (hall r0 hr0mem) (not_le.mpr (ruleScore_pos_of_long r0 input hw))
    · rw [analyzeTask_of_fold_some input r h1] at hfb
      exact mkRuleResult_ne_fallback r (analysisRules_keywords_ne_nil r hmem) hfb
  · intro hw hnone
    have hs : ∀ r ∈ analysisRules, ruleScore r input = 1/2 := by
      intro r hr
      rw [ruleScore_of_no_match r input (hnone r hr).1 (hnone r hr).2, if_pos hw]
    have hfold := bestMatchFold_all_eq_head input (1/2) r0 rest hshape hs (by norm_num)
    refine ⟨r0, by rw [hshape]; rfl, ?_, hvision, hhigh⟩
    exact analyzeTask_of_fold_some input r0 (by rw [hfold])
  · intro hfb
    rcases bestMatchFold_cases input analysisRules (none, 0) with ⟨heq, hall⟩ | ⟨r, hmem, h1, _, _⟩
    · have hz : ∀ r ∈ analysisRules, ruleScore r input = 0 := fun r hr =>
        le_antisymm (hall r hr) (ruleScore_nonneg r input)
      have hparts := fun r hr => ruleScore_eq_zero_parts r input (hz r hr)
      exact ⟨not_lt.mp (hparts r0 hr0mem).2.2,
        fun r hr => ⟨(hparts r hr).1, (hparts r hr).2.1⟩⟩
    · rw [analyzeTask_of_fold_some input r h1] at hfb
      exact absurd hfb (mkRuleResult_ne_fallback r (analysisRules_keywords_ne_nil r hmem))

/-- Witness for C10 at an 11-word input matching no pattern and no
keyword: the vision rule wins. -/
theorem classifier_length_bonus_witness :
    10 < wordCount (lit "zq zq zq zq zq zq zq zq zq zq zq") ∧
    (∃ r0, analysisRules.head? = some r0 ∧
      analyzeTask (lit "zq zq zq zq zq zq zq zq zq zq zq") = mkRuleResult r0 ∧
      r0.taskType = .visionAnalysis ∧ r0.priority = .high) :=
  ⟨by decide,
    (classifier_length_bonus (lit "zq zq zq zq zq zq zq zq zq zq zq")).2.1
      (by decide) (by decide)⟩

end TTKi

namespace TTKi

/-! ### C4 — the sequential dependency chain of the plan builder -/

theorem createGo_length (gen : Nat → Nat) :
    ∀ (ds : List (List Char)) (i : Nat) (prev : Option Nat),
      (createTaskEntitiesGo gen i prev ds).length = ds.length := by
  intro ds
  induction ds with
  | nil => intro i prev; rfl
  | cons d ds ih =>
    intro i prev
    simp only [createTaskEntitiesGo, List.length_cons]
    rw [ih]

theorem createGo_get_id (gen : Nat → Nat) :
    ∀ (ds : List (List Char)) (i : Nat) (prev : Option Nat) (j : Nat)
      (h : j < (createTaskEntitiesGo gen i prev ds).length),
      ((createTaskEntitiesGo gen i prev ds).get ⟨j, h⟩).id = gen (i + j) := by
  intro ds
  induction ds with
  | nil => intro i prev j h; simp [createTaskEntitiesGo] at h
  | cons d ds ih =>
    intro i prev j h
    cases j with
    | zero => simp [createTaskEntitiesGo, mkTask]
    | succ j =>
      have hlen : j < (createTaskEntitiesGo gen (i + 1) (some (gen i)) ds).length := by
        rw [createGo_length gen] at h ⊢
        simp only [List.length_cons] at h
        omega
      have hrec := ih (i + 1) (some (gen i)) j hlen
      calc ((createTaskEntitiesGo gen i prev (d :: ds)).get ⟨j + 1, h⟩).id
          = ((createTaskEntitiesGo gen (i + 1) (some (gen i)) ds).get ⟨j, hlen⟩).id := rfl
        _ = gen (i + 1 + j) := hrec
        _ = gen (i + (j + 1)) := congrArg gen (by omega)

theorem createGo_get_deps_succ (gen : Nat → Nat) :
    ∀ (ds : List (List Char)) (i : Nat) (prev : Option Nat) (j : Nat)
      (h : j + 1 < (createTaskEntitiesGo gen i prev ds).length),
      ((createTaskEntitiesGo gen i prev ds).get ⟨j + 1, h⟩).dependencies = [gen (i + j)] := by
  intro ds
  induction ds with
  | nil => intro i prev j h; simp [createTaskEntitiesGo] at h
  | cons d ds ih =>
    intro i prev j h
    have hlen : j < (createTaskEntitiesGo gen (i + 1) (some (gen i)) ds).length := by
      rw [createGo_length gen] at h ⊢
      simp only [List.length_cons] at h
      omega
    cases j with
    | zero =>
      cases ds with
      | nil => simp [createTaskEntitiesGo] at hlen
      | cons e es => simp [createTaskEntitiesGo, mkTask]
    | succ j =>
      calc ((createTaskEntitiesGo gen i prev (d :: ds)).get ⟨j + 1 + 1, h⟩).dependencies
          = ((createTaskEntitiesGo gen (i + 1) (some (gen i)) ds).get
              ⟨j + 1, hlen⟩).dependencies := rfl
        _ = [gen (i + 1 + j)] := ih (i + 1) (some (gen i)) j hlen
        _ = [gen (i + (j + 1))] := by rw [show i + 1 + j = i + (j + 1) by omega]

theorem createGo_deps_ne_nil (gen : Nat → Nat) :
    ∀ (ds : List (List Char)) (i p : Nat),
      ∀ t ∈ createTaskEntitiesGo gen i (some p) ds, t.dependencies ≠ [] := by
  intro ds
  induction ds with
  | nil => intro i p t ht; simp [createTaskEntitiesGo] at ht
  | cons d ds ih =>
    intro i p t ht
    simp only [createTaskEntitiesGo, List.mem_cons] at ht
    rcases ht with rfl | ht
    · simp [mkTask]
    · exact ih (i + 1) (gen i) t ht

/-- C4: for a request decomposed into at least two fragments,
`_create_task_entities` produces exactly one task per fragment, the first
task has no dependencies, task `i+1` depends exactly on task `i`'s id (a
strict sequential chain), and `_identify_parallel_groups` reports no
parallel group. -/
theorem plan_sequential_chain (gen : Nat → Nat) (descs : List (List Char))
    (h2 : 2 ≤ descs.length) :
    (createTaskEntities gen descs).length = descs.length ∧
    (∀ h0 : 0 < (createTaskEntities gen descs).length,
      ((createTaskEntities gen descs).get ⟨0, h0⟩).dependencies = []) ∧
    (∀ (j : Nat) (hj1 : j + 1 < (createTaskEntities gen descs).length)
        (hj : j < (createTaskEntities gen descs).length),
      ((createTaskEntities gen descs).get ⟨j + 1, hj1⟩).dependencies =
        [((createTaskEntities gen descs).get ⟨j, hj⟩).id]) ∧
    identifyParallelGroups (createTaskEntities gen descs) = [] := by
  refine ⟨createGo_length gen descs 0 none, ?_, ?_, ?_⟩
  · intro h0
    cases descs with
    | nil => simp [createTaskEntities, createTaskEntitiesGo] at h0
    | cons d ds => simp [createTaskEntities, createTaskEntitiesGo, mkTask]
  · intro j hj1 hj
    show ((createTaskEntitiesGo gen 0 none descs).get ⟨j + 1, hj1⟩).dependencies =
      [((createTaskEntitiesGo gen 0 none descs).get ⟨j, hj⟩).id]
    rw [createGo_get_deps_succ gen descs 0 none j hj1,
      createGo_get_id gen descs 0 none j hj]
  · cases descs with
    | nil => simp at h2
    | cons d ds =>
      have hfil : (createTaskEntitiesGo gen 1 (some (gen 0)) ds).filter
          (fun t => t.dependencies.isEmpty) = [] := by
        rw [List.filter_eq_nil_iff]
        intro t ht
        have := createGo_deps_ne_nil gen ds 1 (gen 0) t ht
        simpa [List.isEmpty_iff] using this
      simp only [identifyParallelGroups, createTaskEntities, createTaskEntitiesGo,
        List.filter_cons, mkTask]
      rw [hfil]
      simp

/-- Witness for C4 at a concrete two-fragment decomposition. -/
theorem plan_sequential_chain_witness :
    2 ≤ [lit "create a file", lit "read it"].length ∧
    ((createTaskEntities (fun n => n) [lit "create a file", lit "read it"]).length =
        [lit "create a file", lit "read it"].length ∧
      (∀ h0 : 0 < (createTaskEntities (fun n => n) [lit "create a file", lit "read it"]).length,
        ((createTaskEntities (fun n => n) [lit "create a file", lit "read it"]).get
            ⟨0, h0⟩).dependencies = []) ∧
      (∀ (j : Nat)
          (hj1 : j + 1 <
            (createTaskEntities (fun n => n) [lit "create a file", lit "read it"]).length)
          (hj : j < (createTaskEntities (fun n => n) [lit "create a file", lit "read it"]).length),
        ((createTaskEntities (fun n => n) [lit "create a file", lit "read it"]).get
            ⟨j + 1, hj1⟩).dependencies =
          [((createTaskEntities (fun n => n) [lit "create a file", lit "read it"]).get
              ⟨j, hj⟩).id]) ∧
      identifyParallelGroups
        (createTaskEntities (fun n => n) [lit "create a file", lit "read it"]) = []) :=
  ⟨by decide, plan_sequential_chain (fun n => n) [lit "create a file", lit "read it"] (by decide)⟩

end TTKi

namespace TTKi

/-! ### C5 — the decomposer's fragment guarantees -/

theorem dropWhile_head_not (p : Char → Bool) :
    ∀ (l : List Char), ∀ c ∈ (l.dropWhile p).head?, p c = false := by
  intro l
  induction l with
  | nil => simp
  | cons a t ih =>
    by_cases ha : p a
    · simpa [List.dropWhile_cons, ha] using ih
    · simp [List.dropWhile_cons, ha]

theorem getLast?_dropWhile (p : Char → Bool) :
    ∀ (l : List Char), l.dropWhile p ≠ [] → (l.dropWhile p).getLast? = l.getLast? := by
  intro l
  induction l with
  | nil => intro h; simp at h
  | cons a t ih =>
    intro h
    by_cases ha : p a
    · rw [List.dropWhile_cons, if_pos ha] at h ⊢
      have ht : t ≠ [] := by
        intro he
        rw [he] at h
        simp at h
      rcases t with _ | ⟨b, t⟩
      · exact absurd rfl ht
      · rw [ih h, List.getLast?_cons_cons]
    · rw [List.dropWhile_cons, if_neg ha]

theorem strip_head_not_space (s : List Char) :
    ∀ c ∈ (strip s).head?, isSpaceChar c = false := by
  intro c hc
  unfold strip at hc
  rw [List.head?_reverse] at hc
  by_cases hB : ((s.dropWhile isSpaceChar).reverse.dropWhile isSpaceChar) = []
  · rw [hB] at hc
    simp at hc
  · rw [getLast?_dropWhile isSpaceChar _ hB, List.getLast?_reverse] at hc
    exact dropWhile_head_not isSpaceChar s c hc

theorem strip_getLast_not_space (s : List Char) :
    ∀ c ∈ (strip s).getLast?, isSpaceChar c = false := by
  intro c hc
  unfold strip at hc
  rw [List.getLast?_reverse] at hc
  exact dropWhile_head_not isSpaceChar (s.dropWhile isSpaceChar).reverse c hc

/-- C5, amended: on non-compound input `extract_subtasks` returns exactly the
one-element list holding the original text; on compound input it returns
either at least two non-empty trimmed fragments (no leading or trailing
whitespace) or — when splitting collapses to at most one non-empty
fragment — the one-element list holding the original text; and for
non-empty input the result is never the empty list. -/
theorem decomposer_fragments (input : List Char) :
    (isComplexTask input = false → extractSubtasks input = [input]) ∧
    (isComplexTask input = true →
      (2 ≤ (extractSubtasks input).length ∧
        ∀ f ∈ extractSubtasks input, f ≠ [] ∧
          (∀ c ∈ f.head?, isSpaceChar c = false) ∧
          (∀ c ∈ f.getLast?, isSpaceChar c = false)) ∨
      extractSubtasks input = [input]) ∧
    (input ≠ [] → extractSubtasks input ≠ []) := by
  refine ⟨?_, ?_, ?_⟩
  · intro h
    simp [extractSubtasks, h]
  · intro h
    by_cases hlen :
      1 < (((splitAll input).map strip).filter (fun p => !p.isEmpty)).length
    · left
      have hres : extractSubtasks input =
          ((splitAll input).map strip).filter (fun p => !p.isEmpty) := by
        simp [extractSubtasks, h, hlen]
      rw [hres]
      refine ⟨by omega, ?_⟩
      intro f hf
      have hm := (List.mem_filter.mp hf).1
      have hne := (List.mem_filter.mp hf).2
      obtain ⟨x, _, hx⟩ := List.mem_map.mp hm
      refine ⟨?_, ?_, ?_⟩
      · intro he
        rw [he] at hne
        simp at hne
      · rw [← hx]
        exact strip_head_not_space x
      · rw [← hx]
        exact strip_getLast_not_space x
    · right
      simp [extractSubtasks, h, hlen]
  · intro _
    by_cases h : isComplexTask input
    · by_cases hlen :
        1 < (((splitAll input).map strip).filter (fun p => !p.isEmpty)).length
      · have hres : extractSubtasks input =
            ((splitAll input).map strip).filter (fun p => !p.isEmpty) := by
          simp [extractSubtasks, h, hlen]
        rw [hres]
        intro he
        rw [he] at hlen
        simp at hlen
      · have hres : extractSubtasks input = [input] := by
          simp [extractSubtasks, h, hlen]
        rw [hres]
        simp
    · have hres : extractSubtasks input = [input] := by
        simp [extractSubtasks, h]
      rw [hres]
      simp

/-- Witness for C5's amended statement at a compound input that splits into
two clean fragments. -/
theorem decomposer_fragments_witness :
    (isComplexTask (lit "create a file and then read it") = false →
      extractSubtasks (lit "create a file and then read it") =
        [lit "create a file and then read it"]) ∧
    (isComplexTask (lit "create a file and then read it") = true →
      (2 ≤ (extractSubtasks (lit "create a file and then read it")).length ∧
        ∀ f ∈ extractSubtasks (lit "create a file and then read it"), f ≠ [] ∧
          (∀ c ∈ f.head?, isSpaceChar c = false) ∧
          (∀ c ∈ f.getLast?, isSpaceChar c = false)) ∨
      extractSubtasks (lit "create a file and then read it") =
        [lit "create a file and then read it"]) ∧
    (lit "create a file and then read it" ≠ [] →
      extractSubtasks (lit "create a file and then read it") ≠ []) :=
  decomposer_fragments (lit "create a file and then read it")

/-- C5, counterexample: the input `" then x"` contains the marker
`" then "`, so it is compound, yet splitting collapses to one fragment and
`extract_subtasks` returns the single original (untrimmed) text — not at
least two trimmed fragments as claimed. -/
theorem decomposer_counterexample :
    isComplexTask (lit " then x") = true ∧
    extractSubtasks (lit " then x") = [lit " then x"] ∧
    (extractSubtasks (lit " then x")).length = 1 := by
  refine ⟨by decide, by decide, by decide⟩

end TTKi

namespace TTKi

/-! ### C7 — agent scoring and selection -/

/-- The selection score exactly as §4.4 of the specification states it:
`50·successRate − 5·queueLength + 30·(kind∈capabilities)
 + 20·(priority ≥ high) + recency bonus` (the bonus size and window are not
quantified by the spec; the code's 10 points within 60 seconds are used,
and a missing success-rate metric contributes 0). -/
def specAgentScore (a : Agent) (t : Task) : ℚ :=
  (match a.successRate with
    | some sr => sr
    | none => 0) * 50
    - (a.queueLen : ℚ) * 5
    + (if canHandleTask a t.taskType then 30 else 0)
    + (if 3 ≤ t.priority.val then 20 else 0)
    + (if a.secondsSinceActivity < 60 then 10 else 0)

/-- An available file-operations agent with success rate 1, two queued
tasks and stale activity — it separates all three scoring formulas. -/
def scoreAgent : Agent :=
  { id := 1, status := .available, capabilities := [.fileOperations],
    successRate := some 1, queueLen := 2, secondsSinceActivity := 1000 }

/-- A high-priority file-operations task for the scoring comparison. -/
def scoreTask : Task :=
  mkTask 1 [] .fileOperations .high [] 1

/-- C7, counterexample: at a concrete candidate the orchestrator scores 80
(queue penalty 10 per task), the planner agent 70 (penalty 5 but no
priority or recency terms), while the claimed formula gives 90 — the
claimed scoring matches neither implementation. -/
theorem agent_score_counterexample :
    calculateAgentScore scoreAgent scoreTask = 80 ∧
    plannerAgentScore scoreAgent scoreTask = 70 ∧
    specAgentScore scoreAgent scoreTask = 90 ∧
    calculateAgentScore scoreAgent scoreTask ≠ specAgentScore scoreAgent scoreTask ∧
    plannerAgentScore scoreAgent scoreTask ≠ specAgentScore scoreAgent scoreTask := by
  refine ⟨by decide, by decide, by decide, by decide, by decide⟩

theorem pickFirstMax_eq_none_iff (t : Task) (l : List Agent) :
    pickFirstMax t l = none ↔ l = [] := by
  cases l with
  | nil => simp [pickFirstMax]
  | cons x rest =>
    simp only [pickFirstMax]
    cases h : pickFirstMax t rest <;> simp [h]
    split <;> simp

theorem pickFirstMax_spec (t : Task) :
    ∀ (l : List Agent) (a : Agent), pickFirstMax t l = some a →
      ∃ l1 l2, l = l1 ++ a :: l2 ∧
        (∀ b ∈ l1, calculateAgentScore b t < calculateAgentScore a t) ∧
        (∀ b ∈ l, calculateAgentScore b t ≤ calculateAgentScore a t) := by
  intro l
  induction l with
  | nil => intro a h; simp [pickFirstMax] at h
  | cons x rest ih =>
    intro a h
    rcases hr : pickFirstMax t rest with _ | b
    · have hnil : rest = [] := (pickFirstMax_eq_none_iff t rest).mp hr
      rw [pickFirstMax, hr] at h
      have hax : x = a := Option.some.inj h
      subst hax
      exact ⟨[], rest, rfl, by simp, by
        intro b hb
        rw [hnil] at hb
        rcases List.mem_cons.mp hb with rfl | hb
        · exact le_refl _
        · simp at hb⟩
    · rw [pickFirstMax, hr] at h
      by_cases hc : calculateAgentScore x t < calculateAgentScore b t
      · simp only [if_pos hc] at h
        have hab : b = a := Option.some.inj h
        subst hab
        obtain ⟨l1, l2, heq, hlt, hle⟩ := ih b hr
        refine ⟨x :: l1, l2, by rw [heq, List.cons_append], ?_, ?_⟩
        · intro c hc'
          rcases List.mem_cons.mp hc' with rfl | hc'
          · exact hc
          · exact hlt c hc'
        · intro c hc'
          rcases List.mem_cons.mp hc' with rfl | hc'
          · exact le_of_lt hc
          · exact hle c hc'
      · simp only [if_neg hc] at h
        have hax : x = a := Option.some.inj h
        subst hax
        obtain ⟨l1, l2, heq, hlt, hle⟩ := ih b hr
        refine ⟨[], rest, rfl, by simp, ?_⟩
        intro c hc'
        rcases List.mem_cons.mp hc' with rfl | hc'
        · exact le_refl _
        · exact le_trans (hle c hc') (not_lt.mp hc)

/-- C7, amended: `_select_best_agent` filters the registry to available
agents declaring the task's type, scores each with
`_calculate_agent_score` (50·successRate when the metric is present,
−10 per queued task, +30 for the capability match, +20 for priority at
least HIGH, +10 when active within the last minute, floored at 0), and
returns the first maximum-scoring candidate in registry order — the head
of the stable descending sort — or `None` exactly when no agent
qualifies. -/
theorem agent_selection (agents : List Agent) (t : Task) :
    (selectBestAgent agents t = none ↔ ∀ a ∈ agents, isCandidate a t = false) ∧
    (∀ a, selectBestAgent agents t = some a →
      a ∈ agents ∧ isCandidate a t = true ∧
      (∀ b ∈ agents, isCandidate b t = true →
        calculateAgentScore b t ≤ calculateAgentScore a t) ∧
      ∃ l1 l2, agents.filter (fun b => isCandidate b t) = l1 ++ a :: l2 ∧
        ∀ b ∈ l1, calculateAgentScore b t < calculateAgentScore a t) := by
  constructor
  · rw [selectBestAgent, pickFirstMax_eq_none_iff, List.filter_eq_nil_iff]
    constructor
    · intro h a ha
      exact Bool.eq_false_iff.mpr (h a ha)
    · intro h a ha
      rw [h a ha]
      simp
  · intro a h
    obtain ⟨l1, l2, heq, hlt, hle⟩ := pickFirstMax_spec t _ a h
    have hafil : a ∈ agents.filter (fun b => isCandidate b t) := by
      rw [heq]
      exact List.mem_append_right l1 (List.mem_cons_self a l2)
    have hmem := List.mem_filter.mp hafil
    refine ⟨hmem.1, hmem.2, ?_, l1, l2, heq, hlt⟩
    intro b hb hcand
    exact hle b (List.mem_filter.mpr ⟨hb, hcand⟩)

/-- Witness for C7's amended selection at a one-agent registry. -/
theorem agent_selection_witness :
    (selectBestAgent [scoreAgent] scoreTask = none ↔
      ∀ a ∈ [scoreAgent], isCandidate a scoreTask = false) ∧
    (∀ a, selectBestAgent [scoreAgent] scoreTask = some a →
      a ∈ [scoreAgent] ∧ isCandidate a scoreTask = true ∧
      (∀ b ∈ [scoreAgent], isCandidate b scoreTask = true →
        calculateAgentScore b scoreTask ≤ calculateAgentScore a scoreTask) ∧
      ∃ l1 l2, [scoreAgent].filter (fun b => isCandidate b scoreTask) = l1 ++ a :: l2 ∧
        ∀ b ∈ l1, calculateAgentScore b scoreTask < calculateAgentScore a scoreTask) :=
  agent_selection [scoreAgent] scoreTask

end TTKi

namespace TTKi

/-! ### Loop fixed points -/

theorem stepIter_of_fixed (agents : List Agent) (outcome : Nat → Bool)
    (s : OrchestratorState) (h : step agents outcome s = .next s) :
    ∀ n, stepIter agents outcome s n = s := by
  intro n
  induction n with
  | zero => rfl
  | succ n ih =>
    show (match step agents outcome (stepIter agents outcome s n) with
      | .done s' => s'
      | .next s' => s') = s
    rw [ih, h]

theorem runExec_none_of_fixed (agents : List Agent) (outcome : Nat → Bool)
    (s : OrchestratorState) (h : step agents outcome s = .next s) :
    ∀ n, runExec agents outcome n s = none := by
  intro n
  induction n with
  | zero => rfl
  | succ n ih =>
    show (match step agents outcome s with
      | .done s' => some s'
      | .next s' => runExec agents outcome n s') = none
    rw [h]
    exact ih

theorem not_terminates_of_fixed (agents : List Agent) (outcome : Nat → Bool)
    (s : OrchestratorState) (h : step agents outcome s = .next s) :
    ¬ executeTerminates agents outcome s := by
  rintro ⟨n, hn⟩
  rw [runExec_none_of_fixed agents outcome s h n] at hn
  simp at hn

/-! ### C2 — deadlock detection halts without marking anything -/

/-- C2, amended: when the ready set is empty, Pending tasks remain, and the
cycle detector fires on them, `execute_plan` breaks out of the loop on that
very iteration with the state unchanged — the implicated tasks stay
Pending (no Failed status, no failure reason recorded) and the report's
failed-task list is the bookkeeping list from before the iteration, which
does not mention them; tasks outside the cycle keep their statuses. -/
theorem deadlock_halts_unchanged (agents : List Agent) (outcome : Nat → Bool)
    (s : OrchestratorState)
    (hready : getReadyTasks s.tasks s.completedIds = [])
    (hpend : pendingTasks s.tasks ≠ [])
    (hcyc : hasCircularDependencies (pendingTasks s.tasks) = true) :
    runExec agents outcome 1 s = some s ∧ (mkReport s).failedTasks = s.failedIds := by
  have hpendF : (pendingTasks s.tasks).isEmpty = false := by
    cases hp : pendingTasks s.tasks with
    | nil => exact absurd hp hpend
    | cons a l => rfl
  have hstep : step agents outcome s = .done s := by
    simp [step, hready, hpendF, hcyc]
  constructor
  · show (match step agents outcome s with
      | .done s' => some s'
      | .next s' => runExec agents outcome 0 s') = some s
    rw [hstep]
  · rfl

/-- A two-task dependency cycle (task 1 depends on 2, task 2 on 1). -/
def cycleTaskA : Task := mkTask 1 [] .fileOperations .medium [2] 1

/-- The second half of the two-task cycle. -/
def cycleTaskB : Task := mkTask 2 [] .fileOperations .medium [1] 1

/-- An available file-operations agent used by the loop examples. -/
def fileAgent : Agent :=
  { id := 7, status := .available, capabilities := [.fileOperations],
    successRate := some 1, queueLen := 0, secondsSinceActivity := 1000 }

/-- C2, counterexample: on a two-task cyclic plan the loop detects the cycle
and returns at once, but the implicated tasks are still Pending — not
Failed with a `DependencyDeadlock` reason — and the report's failed list
is empty. -/
theorem deadlock_counterexample :
    hasCircularDependencies (pendingTasks (initState [cycleTaskA, cycleTaskB]).tasks) = true ∧
    runExec [fileAgent] (fun _ => true) 1 (initState [cycleTaskA, cycleTaskB]) =
      some (initState [cycleTaskA, cycleTaskB]) ∧
    ((initState [cycleTaskA, cycleTaskB]).tasks.all fun t => t.status = .pending) = true ∧
    (mkReport (initState [cycleTaskA, cycleTaskB])).failedTasks = [] := by
  refine ⟨by decide, by decide, by decide, by decide⟩

/-- Witness for C2's amended statement at the concrete cyclic plan. -/
theorem deadlock_halts_unchanged_witness :
    getReadyTasks (initState [cycleTaskA, cycleTaskB]).tasks
        (initState [cycleTaskA, cycleTaskB]).completedIds = [] ∧
    pendingTasks (initState [cycleTaskA, cycleTaskB]).tasks ≠ [] ∧
    hasCircularDependencies (pendingTasks (initState [cycleTaskA, cycleTaskB]).tasks) = true ∧
    (runExec [fileAgent] (fun _ => true) 1 (initState [cycleTaskA, cycleTaskB]) =
        some (initState [cycleTaskA, cycleTaskB]) ∧
      (mkReport (initState [cycleTaskA, cycleTaskB])).failedTasks =
        (initState [cycleTaskA, cycleTaskB]).failedIds) :=
  ⟨by decide, by decide, by decide,
    deadlock_halts_unchanged [fileAgent] (fun _ => true) (initState [cycleTaskA, cycleTaskB])
      (by decide) (by decide) (by decide)⟩

end TTKi

namespace TTKi

/-! ### C3 — a ready task with no agent is retried forever -/

theorem nodup_id_inj (tasks : List Task)
    (h : (tasks.map fun t => t.id).Nodup) :
    ∀ a ∈ tasks, ∀ b ∈ tasks, a.id = b.id → a = b :=
  List.inj_on_of_nodup_map h

theorem markExecuted_id (agents : List Agent) (outcome : Nat → Bool) (t : Task) :
    (markExecuted agents outcome t).id = t.id := by
  unfold markExecuted
  split <;> rfl

/-- C3, amended: a ready task for which `_select_best_agent` returns `None`
is simply skipped for the cycle: the loop always continues (no `break`),
the task's status remains Pending even when sibling ready tasks are
dispatched, and when no ready task at all can be assigned the iteration
leaves the state completely unchanged — so such a task is retried forever,
with no retry bound and no `AgentUnavailable` failure marking. -/
theorem agentless_task_stays_pending (agents : List Agent) (outcome : Nat → Bool)
    (s : OrchestratorState) (t : Task)
    (hnodup : (s.tasks.map fun u => u.id).Nodup)
    (hready : t ∈ getReadyTasks s.tasks s.completedIds)
    (hnone : selectBestAgent agents t = none) :
    (∃ s', step agents outcome s = .next s' ∧
      ∃ t' ∈ s'.tasks, t'.id = t.id ∧ t'.status = .pending) ∧
    ((∀ u ∈ getReadyTasks s.tasks s.completedIds, selectBestAgent agents u = none) →
      step agents outcome s = .next s) := by
  have hmem : t ∈ s.tasks := List.mem_of_mem_filter hready
  have hpend : t.status = .pending := by
    have := (List.mem_filter.mp hready).2
    simp only [Bool.and_eq_true, decide_eq_true_eq] at this
    exact this.1
  have hreadyNE : getReadyTasks s.tasks s.completedIds ≠ [] :=
    fun he => by rw [he] at hready; simp at hready
  have hreadyF : (getReadyTasks s.tasks s.completedIds).isEmpty = false := by
    cases hr : getReadyTasks s.tasks s.completedIds with
    | nil => exact absurd hr hreadyNE
    | cons a l => rfl
  constructor
  · by_cases hdisp :
      ((getReadyTasks s.tasks s.completedIds).filter
        (fun u => (selectBestAgent agents u).isSome)).isEmpty = true
    · refine ⟨s, ?_, t, hmem, rfl, hpend⟩
      simp [step, hreadyF, hdisp]
    · have hstep : step agents outcome s = .next
          { tasks := s.tasks.map (fun u =>
              if (((getReadyTasks s.tasks s.completedIds).filter
                    (fun v => (selectBestAgent agents v).isSome)).map
                  (fun v => v.id)).contains u.id
              then markExecuted agents outcome u else u)
          , completedIds := s.completedIds ++
              (((getReadyTasks s.tasks s.completedIds).zip
                  ((getReadyTasks s.tasks s.completedIds).filter
                    (fun v => (selectBestAgent agents v).isSome))).filter
                (fun p => outcome p.2.id)).map (fun p => p.1.id)
          , failedIds := s.failedIds ++
              (((getReadyTasks s.tasks s.completedIds).zip
                  ((getReadyTasks s.tasks s.completedIds).filter
                    (fun v => (selectBestAgent agents v).isSome))).filter
                (fun p => !(outcome p.2.id))).map (fun p => p.1.id) } := by
        simp only [step, hreadyF, Bool.false_eq_true, if_false, hdisp]
      refine ⟨_, hstep, ?_⟩
      have hcont : ((((getReadyTasks s.tasks s.completedIds).filter
          (fun v => (selectBestAgent agents v).isSome)).map
            (fun v => v.id)).contains t.id) = false := by
        rw [Bool.eq_false_iff]
        intro hc
        have hcm := List.mem_of_elem_eq_true hc
        obtain ⟨v, hv, hvid⟩ := List.mem_map.mp hcm
        have hvfil := List.mem_filter.mp hv
        have hvmem : v ∈ s.tasks := List.mem_of_mem_filter hvfil.1
        have : v = t := nodup_id_inj s.tasks hnodup v hvmem t hmem hvid
        rw [this, hnone] at hvfil
        simp at hvfil
      refine ⟨(fun u =>
        if (((getReadyTasks s.tasks s.completedIds).filter
              (fun v => (selectBestAgent agents v).isSome)).map
            (fun v => v.id)).contains u.id
        then markExecuted agents outcome u else u) t, List.mem_map_of_mem _ hmem, ?_⟩
      simp only [hcont, Bool.false_eq_true, if_false]
      exact ⟨trivial, hpend⟩
  · intro hall
    have hdisp : ((getReadyTasks s.tasks s.completedIds).filter
        (fun u => (selectBestAgent agents u).isSome)).isEmpty = true := by
      rw [List.isEmpty_iff, List.filter_eq_nil_iff]
      intro u hu
      rw [hall u hu]
      simp
    simp [step, hreadyF, hdisp]

/-- A dependency-free vision task no registered agent can handle. -/
def orphanTask : Task := mkTask 5 [] .visionAnalysis .medium [] 1

/-- C3, counterexample: with a single ready vision task and a registry
holding only a file-operations agent, the iteration is a fixed point — the
loop spins forever, the task is never marked Failed (no `AgentUnavailable`,
no retry bound) and `execute_plan` never returns. -/
theorem agent_unavailable_counterexample :
    step [fileAgent] (fun _ => true) (initState [orphanTask]) =
      .next (initState [orphanTask]) ∧
    neverFails [fileAgent] (fun _ => true) (initState [orphanTask]) ∧
    ¬ executeTerminates [fileAgent] (fun _ => true) (initState [orphanTask]) := by
  have hfix : step [fileAgent] (fun _ => true) (initState [orphanTask]) =
      .next (initState [orphanTask]) := by decide
  refine ⟨hfix, ?_, not_terminates_of_fixed _ _ _ hfix⟩
  intro n
  rw [stepIter_of_fixed _ _ _ hfix n]
  decide

/-- Witness for C3's amended statement at the concrete one-task registry. -/
theorem agentless_task_stays_pending_witness :
    ((initState [orphanTask]).tasks.map fun u => u.id).Nodup ∧
    orphanTask ∈ getReadyTasks (initState [orphanTask]).tasks
      (initState [orphanTask]).completedIds ∧
    selectBestAgent [fileAgent] orphanTask = none ∧
    ((∃ s', step [fileAgent] (fun _ => true) (initState [orphanTask]) = .next s' ∧
        ∃ t' ∈ s'.tasks, t'.id = orphanTask.id ∧ t'.status = .pending) ∧
      ((∀ u ∈ getReadyTasks (initState [orphanTask]).tasks
          (initState [orphanTask]).completedIds,
          selectBestAgent [fileAgent] u = none) →
        step [fileAgent] (fun _ => true) (initState [orphanTask]) =
          .next (initState [orphanTask]))) :=
  ⟨by decide, by decide, by decide,
    agentless_task_stays_pending [fileAgent] (fun _ => true) (initState [orphanTask])
      orphanTask (by decide) (by decide) (by decide)⟩

end TTKi

namespace TTKi

/-! ### C1 — termination on acyclic, fully-serviceable, failure-free plans -/

theorem markExecuted_dependencies (agents : List Agent) (outcome : Nat → Bool) (t : Task) :
    (markExecuted agents outcome t).dependencies = t.dependencies := by
  unfold markExecuted
  split <;> rfl

theorem markExecuted_taskType (agents : List Agent) (outcome : Nat → Bool) (t : Task) :
    (markExecuted agents outcome t).taskType = t.taskType := by
  unfold markExecuted
  split <;> rfl

theorem markExecuted_priority (agents : List Agent) (outcome : Nat → Bool) (t : Task) :
    (markExecuted agents outcome t).priority = t.priority := by
  unfold markExecuted
  split <;> rfl

theorem markExecuted_status_completed (agents : List Agent) (outcome : Nat → Bool)
    (t : Task) (h : outcome t.id = true) :
    (markExecuted agents outcome t).status = .completed := by
  simp [markExecuted, h]

theorem calculateAgentScore_congr (u t : Task) (hT : u.taskType = t.taskType)
    (hP : u.priority = t.priority) :
    ∀ a, calculateAgentScore a u = calculateAgentScore a t := by
  intro a
  unfold calculateAgentScore canHandleTask
  rw [hT, hP]

theorem pickFirstMax_congr (u t : Task) (hT : u.taskType = t.taskType)
    (hP : u.priority = t.priority) :
    ∀ l, pickFirstMax u l = pickFirstMax t l := by
  intro l
  induction l with
  | nil => rfl
  | cons x rest ih =>
    simp only [pickFirstMax, ih, calculateAgentScore_congr u t hT hP]

theorem selectBestAgent_congr (agents : List Agent) (u t : Task)
    (hT : u.taskType = t.taskType) (hP : u.priority = t.priority) :
    selectBestAgent agents u = selectBestAgent agents t := by
  unfold selectBestAgent
  have hfil : (fun a => isCandidate a u) = (fun a => isCandidate a t) := by
    funext a
    unfold isCandidate canHandleTask
    rw [hT]
  rw [hfil, pickFirstMax_congr u t hT hP]

theorem zip_self_filter_pos (outcome : Nat → Bool) :
    ∀ (l : List Task), (∀ t ∈ l, outcome t.id = true) →
      (((l.zip l).filter fun p => outcome p.2.id).map fun p => p.1.id) =
        l.map fun t => t.id := by
  intro l
  induction l with
  | nil => intro _; rfl
  | cons x rest ih =>
    intro h
    rw [List.zip_cons_cons, List.filter_cons]
    rw [if_pos (by simp [h x (List.mem_cons_self x rest)])]
    rw [List.map_cons, List.map_cons,
      ih fun t ht => h t (List.mem_cons_of_mem x ht)]

theorem zip_self_filter_neg (outcome : Nat → Bool) :
    ∀ (l : List Task), (∀ t ∈ l, outcome t.id = true) →
      (((l.zip l).filter fun p => !(outcome p.2.id)).map fun p => p.1.id) = [] := by
  intro l
  induction l with
  | nil => intro _; rfl
  | cons x rest ih =>
    intro h
    rw [List.zip_cons_cons, List.filter_cons]
    rw [if_neg (by simp [h x (List.mem_cons_self x rest)])]
    exact ih fun t ht => h t (List.mem_cons_of_mem x ht)

theorem countP_lt_of_strict {α : Type} (p q : α → Bool) :
    ∀ (l : List α), (∀ a ∈ l, q a = true → p a = true) →
      ∀ a₀ ∈ l, p a₀ = true → q a₀ = false → l.countP q < l.countP p := by
  intro l
  induction l with
  | nil => intro _ a₀ ha₀; simp at ha₀
  | cons x rest ih =>
    intro hpq a₀ ha₀ hp hq
    simp only [List.countP_cons]
    have hmono : rest.countP q ≤ rest.countP p :=
      List.countP_mono_left fun a ha => hpq a (List.mem_cons_of_mem x ha)
    rcases List.mem_cons.mp ha₀ with rfl | ha₀
    · rw [hp, hq]
      norm_num
      omega
    · have hrec := ih (fun a ha hqa => hpq a (List.mem_cons_of_mem x ha) hqa) a₀ ha₀ hp hq
      have hx : (if q x = true then 1 else 0) ≤ (if p x = true then 1 else 0) := by
        by_cases hqx : q x = true
        · rw [if_pos hqx, if_pos (hpq x (List.mem_cons_self x rest) hqx)]
        · rw [if_neg hqx]
          split <;> omega
      omega

theorem exists_min_by (g : Task → Nat) :
    ∀ (l : List Task), l ≠ [] → ∃ t ∈ l, ∀ u ∈ l, g t ≤ g u := by
  intro l
  induction l with
  | nil => intro h; exact absurd rfl h
  | cons x rest ih =>
    intro _
    rcases rest with _ | ⟨y, rest'⟩
    · exact ⟨x, List.mem_cons_self x [], by
        intro u hu
        rcases List.mem_cons.mp hu with rfl | hu
        · exact le_refl _
        · simp at hu⟩
    · obtain ⟨t, ht, hmin⟩ := ih (by simp)
      by_cases hc : g t ≤ g x
      · exact ⟨t, List.mem_cons_of_mem x ht, by
          intro u hu
          rcases List.mem_cons.mp hu with rfl | hu
          · exact hc
          · exact hmin u hu⟩
      · exact ⟨x, List.mem_cons_self x (y :: rest'), by
          intro u hu
          rcases List.mem_cons.mp hu with rfl | hu
          · exact le_refl _
          · exact le_trans (le_of_not_le hc) (hmin u hu)⟩

end TTKi

namespace TTKi

/-- The inductive invariant of the driving loop under the amended C1
hypotheses: statuses stay in {Pending, Completed}, the completed-ids
bookkeeping mirrors the Completed statuses, ids stay distinct, the
dependency graph stays ranked (acyclic) and closed, and every task still
has a capable agent and a succeeding executor. -/
def LoopInv (agents : List Agent) (outcome : Nat → Bool) (rank : Nat → Nat)
    (s : OrchestratorState) : Prop :=
  (∀ t ∈ s.tasks, t.status = .pending ∨ t.status = .completed) ∧
  (∀ t ∈ s.tasks, (t.status = .completed ↔ t.id ∈ s.completedIds)) ∧
  ((s.tasks.map fun t => t.id).Nodup) ∧
  (∀ t ∈ s.tasks, ∀ d ∈ t.dependencies, rank d < rank t.id) ∧
  (∀ t ∈ s.tasks, ∀ d ∈ t.dependencies, ∃ u ∈ s.tasks, u.id = d) ∧
  (∀ t ∈ s.tasks, (selectBestAgent agents t).isSome = true) ∧
  (∀ t ∈ s.tasks, outcome t.id = true)

theorem ready_ne_nil_of_pending (agents : List Agent) (outcome : Nat → Bool)
    (rank : Nat → Nat) (s : OrchestratorState) (hinv : LoopInv agents outcome rank s)
    (hpend : pendingTasks s.tasks ≠ []) :
    getReadyTasks s.tasks s.completedIds ≠ [] := by
  obtain ⟨h1, h2, _, h4, h5, _, _⟩ := hinv
  obtain ⟨t, htp, hmin⟩ := exists_min_by (fun u => rank u.id) (pendingTasks s.tasks) hpend
  have htmem : t ∈ s.tasks := List.mem_of_mem_filter htp
  have htpend : t.status = .pending := by
    have := (List.mem_filter.mp htp).2
    simpa using this
  have hready : t ∈ getReadyTasks s.tasks s.completedIds := by
    rw [getReadyTasks, List.mem_filter]
    refine ⟨htmem, ?_⟩
    simp only [Bool.and_eq_true, decide_eq_true_eq]
    refine ⟨htpend, ?_⟩
    rw [canStart, List.all_eq_true]
    intro d hd
    obtain ⟨u, hu, huid⟩ := h5 t htmem d hd
    rcases h1 u hu with hup | huc
    · exfalso
      have hupend : u ∈ pendingTasks s.tasks :=
        List.mem_filter.mpr ⟨hu, by simp [hup]⟩
      have hge := hmin u hupend
      have hlt := h4 t htmem d hd
      rw [huid] at hge
      omega
    · have hidc := (h2 u hu).mp huc
      rw [huid] at hidc
      exact List.elem_eq_true_of_mem hidc
  exact fun he => by rw [he] at hready; simp at hready

theorem step_dispatch_success (agents : List Agent) (outcome : Nat → Bool)
    (rank : Nat → Nat) (s : OrchestratorState) (hinv : LoopInv agents outcome rank s)
    (hready : getReadyTasks s.tasks s.completedIds ≠ []) :
    ∃ s', step agents outcome s = .next s' ∧ LoopInv agents outcome rank s' ∧
      (pendingTasks s'.tasks).length < (pendingTasks s.tasks).length := by
  obtain ⟨h1, h2, h3, h4, h5, h6, h7⟩ := hinv
  have hreadyF : (getReadyTasks s.tasks s.completedIds).isEmpty = false := by
    cases hr : getReadyTasks s.tasks s.completedIds with
    | nil => exact absurd hr hready
    | cons a l => rfl
  have hfil : (getReadyTasks s.tasks s.completedIds).filter
      (fun t => (selectBestAgent agents t).isSome) = getReadyTasks s.tasks s.completedIds :=
    List.filter_eq_self.mpr fun u hu => h6 u (List.mem_of_mem_filter hu)
  have hallout : ∀ t ∈ getReadyTasks s.tasks s.completedIds, outcome t.id = true :=
    fun t ht => h7 t (List.mem_of_mem_filter ht)
  have hstep : step agents outcome s = .next
      { tasks := s.tasks.map (fun u =>
          if ((getReadyTasks s.tasks s.completedIds).map (fun t => t.id)).contains u.id
          then markExecuted agents outcome u else u)
      , completedIds := s.completedIds ++
          (getReadyTasks s.tasks s.completedIds).map (fun t => t.id)
      , failedIds := s.failedIds } := by
    simp only [step, hreadyF, Bool.false_eq_true, if_false, hfil,
      zip_self_filter_pos outcome _ hallout, zip_self_filter_neg outcome _ hallout,
      List.append_nil]
  have hcontIff : ∀ u ∈ s.tasks,
      ((((getReadyTasks s.tasks s.completedIds).map (fun t => t.id)).contains u.id) = true ↔
        u ∈ getReadyTasks s.tasks s.completedIds) := by
    intro u hu
    constructor
    · intro hc
      obtain ⟨v, hv, hvid⟩ := List.mem_map.mp (List.mem_of_elem_eq_true hc)
      have hveq : v = u := nodup_id_inj s.tasks h3 v (List.mem_of_mem_filter hv) u hu hvid
      exact hveq ▸ hv
    · intro hm
      exact List.elem_eq_true_of_mem (List.mem_map_of_mem (fun t => t.id) hm)
  have hpointwise : ∀ u ∈ s.tasks,
      (u ∈ getReadyTasks s.tasks s.completedIds →
        (if ((getReadyTasks s.tasks s.completedIds).map (fun t => t.id)).contains u.id
          then markExecuted agents outcome u else u) = markExecuted agents outcome u) ∧
      (u ∉ getReadyTasks s.tasks s.completedIds →
        (if ((getReadyTasks s.tasks s.completedIds).map (fun t => t.id)).contains u.id
          then markExecuted agents outcome u else u) = u) := by
    intro u hu
    constructor
    · intro hm
      rw [if_pos ((hcontIff u hu).mpr hm)]
    · intro hm
      rw [if_neg (fun hc => hm ((hcontIff u hu).mp hc))]
  have hcases : ∀ t', t' ∈ s.tasks.map (fun u =>
      if ((getReadyTasks s.tasks s.completedIds).map (fun t => t.id)).contains u.id
      then markExecuted agents outcome u else u) →
      ∃ u ∈ s.tasks, (t' = markExecuted agents outcome u ∧
          u ∈ getReadyTasks s.tasks s.completedIds) ∨
        (t' = u ∧ u ∉ getReadyTasks s.tasks s.completedIds) := by
    intro t' ht'
    obtain ⟨u, hu, hut⟩ := List.mem_map.mp ht'
    refine ⟨u, hu, ?_⟩
    by_cases hm : u ∈ getReadyTasks s.tasks s.completedIds
    · exact Or.inl ⟨by rw [← hut, (hpointwise u hu).1 hm], hm⟩
    · exact Or.inr ⟨by rw [← hut, (hpointwise u hu).2 hm], hm⟩
  refine ⟨_, hstep, ?_, ?_⟩
  · refine ⟨?_, ?_, ?_, ?_, ?_, ?_, ?_⟩
    · intro t' ht'
      obtain ⟨u, hu, hcase⟩ := hcases t' ht'
      rcases hcase with ⟨heq, hm⟩ | ⟨heq, _⟩
      · rw [heq]
        exact Or.inr (markExecuted_status_completed agents outcome u (h7 u hu))
      · rw [heq]
        exact h1 u hu
    · intro t' ht'
      obtain ⟨u, hu, hcase⟩ := hcases t' ht'
      rcases hcase with ⟨heq, hm⟩ | ⟨heq, hm⟩
      · rw [heq]
        constructor
        · intro _
          apply List.mem_append_right
          rw [markExecuted_id]
          exact List.mem_map_of_mem (fun t => t.id) hm
        · intro _
          exact markExecuted_status_completed agents outcome u (h7 u hu)
      · rw [heq]
        constructor
        · intro hc
          exact List.mem_append_left _ ((h2 u hu).mp hc)
        · intro hc
          rcases List.mem_append.mp hc with hin | hin
          · exact (h2 u hu).mpr hin
          · exact absurd ((hcontIff u hu).mpr (by
              obtain ⟨v, hv, hvid⟩ := List.mem_map.mp hin
              have hveq : v = u :=
                nodup_id_inj s.tasks h3 v (List.mem_of_mem_filter hv) u hu hvid
              exact hveq ▸ hv)) (fun hcon => hm ((hcontIff u hu).mp hcon))
    · have hmapid : (s.tasks.map (fun u =>
          if ((getReadyTasks s.tasks s.completedIds).map (fun t => t.id)).contains u.id
          then markExecuted agents outcome u else u)).map (fun t => t.id) =
            s.tasks.map (fun t => t.id) := by
        rw [List.map_map]
        apply List.map_eq_map_iff.mpr
        intro u hu
        show (if ((getReadyTasks s.tasks s.completedIds).map (fun t => t.id)).contains u.id
          then markExecuted agents outcome u else u).id = u.id
        by_cases hm : u ∈ getReadyTasks s.tasks s.completedIds
        · rw [(hpointwise u hu).1 hm, markExecuted_id]
        · rw [(hpointwise u hu).2 hm]
      show ((s.tasks.map (fun u =>
        if ((getReadyTasks s.tasks s.completedIds).map (fun t => t.id)).contains u.id
        then markExecuted agents outcome u else u)).map fun t => t.id).Nodup
      rw [hmapid]
      exact h3
    · intro t' ht'
      obtain ⟨u, hu, hcase⟩ := hcases t' ht'
      rcases hcase with ⟨heq, _⟩ | ⟨heq, _⟩
      · rw [heq, markExecuted_dependencies, markExecuted_id]
        exact h4 u hu
      · rw [heq]
        exact h4 u hu
    · intro t' ht'
      obtain ⟨u, hu, hcase⟩ := hcases t' ht'
      have hdeps : t'.dependencies = u.dependencies := by
        rcases hcase with ⟨heq, _⟩ | ⟨heq, _⟩
        · rw [heq, markExecuted_dependencies]
        · rw [heq]
      rw [hdeps]
      intro d hd
      obtain ⟨v, hv, hvid⟩ := h5 u hu d hd
      refine ⟨(if ((getReadyTasks s.tasks s.completedIds).map (fun t => t.id)).contains v.id
        then markExecuted agents outcome v else v), List.mem_map_of_mem _ hv, ?_⟩
      by_cases hm : v ∈ getReadyTasks s.tasks s.completedIds
      · rw [(hpointwise v hv).1 hm, markExecuted_id]
        exact hvid
      · rw [(hpointwise v hv).2 hm]
        exact hvid
    · intro t' ht'
      obtain ⟨u, hu, hcase⟩ := hcases t' ht'
      rcases hcase with ⟨heq, _⟩ | ⟨heq, _⟩
      · rw [heq, selectBestAgent_congr agents _ u (markExecuted_taskType agents outcome u)
          (markExecuted_priority agents outcome u)]
        exact h6 u hu
      · rw [heq]
        exact h6 u hu
    · intro t' ht'
      obtain ⟨u, hu, hcase⟩ := hcases t' ht'
      rcases hcase with ⟨heq, _⟩ | ⟨heq, _⟩
      · rw [heq, markExecuted_id]
        exact h7 u hu
      · rw [heq]
        exact h7 u hu
  · obtain ⟨r0, hr0⟩ : ∃ r0, r0 ∈ getReadyTasks s.tasks s.completedIds :=
      List.exists_mem_of_ne_nil _ hready
    have hr0mem : r0 ∈ s.tasks := List.mem_of_mem_filter hr0
    have hr0pend : r0.status = .pending := by
      have := (List.mem_filter.mp hr0).2
      simp only [Bool.and_eq_true, decide_eq_true_eq] at this
      exact this.1
    simp only [pendingTasks]
    rw [← List.countP_eq_length_filter, ← List.countP_eq_length_filter, List.countP_map]
    refine countP_lt_of_strict _ _ s.tasks ?_ r0 hr0mem ?_ ?_
    · intro u hu hq
      simp only [Function.comp_apply] at hq
      by_cases hm : u ∈ getReadyTasks s.tasks s.completedIds
      · rw [(hpointwise u hu).1 hm,
          markExecuted_status_completed agents outcome u (h7 u hu)] at hq
        exact absurd hq (by decide)
      · rw [(hpointwise u hu).2 hm] at hq
        exact hq
    · simp [hr0pend]
    · simp only [Function.comp_apply]
      rw [(hpointwise r0 hr0mem).1 hr0,
        markExecuted_status_completed agents outcome r0 (h7 r0 hr0mem)]
      decide

end TTKi

namespace TTKi

theorem step_done_of_no_pending (agents : List Agent) (outcome : Nat → Bool)
    (s : OrchestratorState) (hpnil : pendingTasks s.tasks = []) :
    step agents outcome s = .done s := by
  have hready : getReadyTasks s.tasks s.completedIds = [] := by
    rw [getReadyTasks, List.filter_eq_nil_iff]
    intro t ht hcond
    simp only [Bool.and_eq_true, decide_eq_true_eq] at hcond
    have hmem : t ∈ pendingTasks s.tasks := List.mem_filter.mpr ⟨ht, by simp [hcond.1]⟩
    rw [hpnil] at hmem
    simp at hmem
  simp [step, hready, hpnil]

theorem run_completes (agents : List Agent) (outcome : Nat → Bool) (rank : Nat → Nat) :
    ∀ (n : Nat) (s : OrchestratorState), (pendingTasks s.tasks).length ≤ n →
      LoopInv agents outcome rank s →
      ∃ s', runExec agents outcome (n + 1) s = some s' ∧
        ∀ t ∈ s'.tasks, t.status = .completed := by
  intro n
  induction n with
  | zero =>
    intro s hn hinv
    have hpnil : pendingTasks s.tasks = [] := List.eq_nil_of_length_eq_zero (by omega)
    refine ⟨s, ?_, ?_⟩
    · show (match step agents outcome s with
        | .done s' => some s'
        | .next s' => runExec agents outcome 0 s') = some s
      rw [step_done_of_no_pending agents outcome s hpnil]
    · intro t ht
      rcases hinv.1 t ht with hp | hc
      · exfalso
        have hmem : t ∈ pendingTasks s.tasks := List.mem_filter.mpr ⟨ht, by simp [hp]⟩
        rw [hpnil] at hmem
        simp at hmem
      · exact hc
  | succ n ih =>
    intro s hn hinv
    by_cases hpnil : pendingTasks s.tasks = []
    · refine ⟨s, ?_, ?_⟩
      · show (match step agents outcome s with
          | .done s' => some s'
          | .next s' => runExec agents outcome (n + 1) s') = some s
        rw [step_done_of_no_pending agents outcome s hpnil]
      · intro t ht
        rcases hinv.1 t ht with hp | hc
        · exfalso
          have hmem : t ∈ pendingTasks s.tasks := List.mem_filter.mpr ⟨ht, by simp [hp]⟩
          rw [hpnil] at hmem
          simp at hmem
        · exact hc
    · have hreadyNE := ready_ne_nil_of_pending agents outcome rank s hinv hpnil
      obtain ⟨s', hstep, hinv', hlt⟩ :=
        step_dispatch_success agents outcome rank s hinv hreadyNE
      obtain ⟨s'', hrun, hall⟩ := ih s' (by omega) hinv'
      refine ⟨s'', ?_, hall⟩
      show (match step agents outcome s with
        | .done t => some t
        | .next t => runExec agents outcome (n + 1) t) = some s''
      rw [hstep]
      exact hrun

/-- C1, amended: for every plan whose tasks start Pending with distinct
ids, whose dependency graph is acyclic (witnessed by a rank function that
decreases along dependency edges) and closed (every dependency id names a
plan task), and in which agent selection succeeds for every task and every
dispatched execution reports success, `execute_plan`'s driving loop
terminates within `tasks.length + 1` iterations with every task in the
terminal Completed status.  (As stated the claim is false: a failing
execution, or a task type with no capable agent, leaves dependents Pending
and the loop spins forever — see the counterexample.) -/
theorem execute_terminates_on_success (agents : List Agent) (outcome : Nat → Bool)
    (tasks : List Task) (rank : Nat → Nat)
    (hstatus : ∀ t ∈ tasks, t.status = .pending)
    (hnodup : (tasks.map fun t => t.id).Nodup)
    (hrank : ∀ t ∈ tasks, ∀ d ∈ t.dependencies, rank d < rank t.id)
    (hclosed : ∀ t ∈ tasks, ∀ d ∈ t.dependencies, ∃ u ∈ tasks, u.id = d)
    (hagent : ∀ t ∈ tasks, (selectBestAgent agents t).isSome = true)
    (hout : ∀ t ∈ tasks, outcome t.id = true) :
    ∃ s', runExec agents outcome (tasks.length + 1) (initState tasks) = some s' ∧
      ∀ t ∈ s'.tasks, t.status = .completed := by
  have hinv : LoopInv agents outcome rank (initState tasks) := by
    refine ⟨fun t ht => Or.inl (hstatus t ht), ?_, hnodup, hrank, hclosed, hagent, hout⟩
    intro t ht
    constructor
    · intro hc
      rw [hstatus t ht] at hc
      cases hc
    · intro hmem
      exact absurd hmem (List.not_mem_nil t.id)
  have hlen : (pendingTasks (initState tasks).tasks).length ≤ tasks.length :=
    List.length_filter_le _ tasks
  exact run_completes agents outcome rank tasks.length (initState tasks) hlen hinv

/-- The first half of an acyclic two-task chain (no dependencies). -/
def chainTask1 : Task := mkTask 1 [] .fileOperations .medium [] 1

/-- The second half of the chain: it depends on task 1. -/
def chainTask2 : Task := mkTask 2 [] .fileOperations .medium [1] 1

/-- Task 1 of the chain after its execution failed. -/
def failedChain1 : Task :=
  { chainTask1 with
      status := .failed
      assignedAgentId := some 7
      error := some (lit "executor failure") }

/-- The loop state after the first iteration when task 1's execution
fails: task 1 Failed, task 2 still Pending, and the failure booked. -/
def failedChainState : OrchestratorState :=
  { tasks := [failedChain1, chainTask2]
  , completedIds := []
  , failedIds := [1] }

/-- C1, counterexample: the two-task chain is acyclic (ids rank its
dependency edges, and the code's own cycle detector agrees), an agent is
available, yet when task 1's execution fails the loop reaches a state with
task 2 forever Pending — the ready set stays empty, the pending set is
acyclic, and the iteration sleeps and repeats unchanged — so `execute_plan`
never returns. -/
theorem acyclic_nontermination_counterexample :
    (∀ t ∈ [chainTask1, chainTask2], ∀ d ∈ t.dependencies, d < t.id) ∧
    hasCircularDependencies [chainTask1, chainTask2] = false ∧
    ¬ executeTerminates [fileAgent] (fun i => i == 2) (initState [chainTask1, chainTask2]) := by
  refine ⟨by decide, by decide, ?_⟩
  have h0 : step [fileAgent] (fun i => i == 2) (initState [chainTask1, chainTask2]) =
      .next failedChainState := by decide
  have h1 : step [fileAgent] (fun i => i == 2) failedChainState = .next failedChainState := by
    decide
  rintro ⟨n, hn⟩
  cases n with
  | zero => simp [runExec] at hn
  | succ n =>
    have hshift : runExec [fileAgent] (fun i => i == 2) (n + 1)
        (initState [chainTask1, chainTask2]) =
        runExec [fileAgent] (fun i => i == 2) n failedChainState := by
      show (match step [fileAgent] (fun i => i == 2) (initState [chainTask1, chainTask2]) with
        | .done s' => some s'
        | .next s' => runExec [fileAgent] (fun i => i == 2) n s') = _
      rw [h0]
    rw [hshift, runExec_none_of_fixed _ _ _ h1 n] at hn
    simp at hn

/-- Witness for C1's amended statement: the two-task chain with a capable
agent and an all-success executor completes within three iterations. -/
theorem execute_terminates_on_success_witness :
    (∀ t ∈ [chainTask1, chainTask2], t.status = .pending) ∧
    (([chainTask1, chainTask2].map fun t => t.id).Nodup) ∧
    (∀ t ∈ [chainTask1, chainTask2], ∀ d ∈ t.dependencies, d < t.id) ∧
    (∀ t ∈ [chainTask1, chainTask2], ∀ d ∈ t.dependencies,
      ∃ u ∈ [chainTask1, chainTask2], u.id = d) ∧
    (∀ t ∈ [chainTask1, chainTask2], (selectBestAgent [fileAgent] t).isSome = true) ∧
    (∀ t ∈ [chainTask1, chainTask2], (fun _ => true) t.id = true) ∧
    (∃ s', runExec [fileAgent] (fun _ => true) ([chainTask1, chainTask2].length + 1)
        (initState [chainTask1, chainTask2]) = some s' ∧
      ∀ t ∈ s'.tasks, t.status = .completed) :=
  ⟨by decide, by decide, by decide, by decide, by decide, by decide,
    execute_terminates_on_success [fileAgent] (fun _ => true) [chainTask1, chainTask2]
      (fun n => n) (by decide) (by decide) (by decide) (by decide) (by decide) (by decide)⟩

end TTKi
